import Mathlib

/-!
Verification of the curve_cad geometry core (internal.py): vector and
circumcircle primitives, axis-aligned bounding boxes, cubic Bezier
evaluation, arc length, slicing, and the two-phase curve-intersection
engine.  Machine reals are modelled by `ℝ`; Python's `float('inf')`
sentinel on a solution's distance is modelled by `⊤ : WithTop ℝ`;
Python's unbounded `while` loop in the narrow phase is modelled by a
fuel-indexed recursion (`narrowGo`), with `none` marking the two ways the
Python function fails to produce a value (the loop still running when the
fuel runs out, and the `minDist` name never having been bound).
-/

noncomputable section

/-- 3D vector with real components (mathutils.Vector). -/
@[ext] structure Vec3 where
  x : ℝ
  y : ℝ
  z : ℝ

instance : Zero Vec3 := ⟨⟨0, 0, 0⟩⟩

instance : Add Vec3 := ⟨fun a b => ⟨a.x + b.x, a.y + b.y, a.z + b.z⟩⟩

instance : Sub Vec3 := ⟨fun a b => ⟨a.x - b.x, a.y - b.y, a.z - b.z⟩⟩

instance : Neg Vec3 := ⟨fun a => ⟨-a.x, -a.y, -a.z⟩⟩

instance : SMul ℝ Vec3 := ⟨fun r v => ⟨r * v.x, r * v.y, r * v.z⟩⟩

@[simp] theorem Vec3.zero_x : (0 : Vec3).x = 0 := rfl

@[simp] theorem Vec3.zero_y : (0 : Vec3).y = 0 := rfl

@[simp] theorem Vec3.zero_z : (0 : Vec3).z = 0 := rfl

@[simp] theorem Vec3.add_x (a b : Vec3) : (a + b).x = a.x + b.x := rfl

@[simp] theorem Vec3.add_y (a b : Vec3) : (a + b).y = a.y + b.y := rfl

@[simp] theorem Vec3.add_z (a b : Vec3) : (a + b).z = a.z + b.z := rfl

@[simp] theorem Vec3.sub_x (a b : Vec3) : (a - b).x = a.x - b.x := rfl

@[simp] theorem Vec3.sub_y (a b : Vec3) : (a - b).y = a.y - b.y := rfl

@[simp] theorem Vec3.sub_z (a b : Vec3) : (a - b).z = a.z - b.z := rfl

@[simp] theorem Vec3.neg_x (a : Vec3) : (-a).x = -a.x := rfl

@[simp] theorem Vec3.neg_y (a : Vec3) : (-a).y = -a.y := rfl

@[simp] theorem Vec3.neg_z (a : Vec3) : (-a).z = -a.z := rfl

@[simp] theorem Vec3.smul_x (r : ℝ) (v : Vec3) : (r • v).x = r * v.x := rfl

@[simp] theorem Vec3.smul_y (r : ℝ) (v : Vec3) : (r • v).y = r * v.y := rfl

@[simp] theorem Vec3.smul_z (r : ℝ) (v : Vec3) : (r • v).z = r * v.z := rfl

/-- Dot product (Python `Vector * Vector` in mathutils). -/
def Vec3.dot (a b : Vec3) : ℝ := a.x * b.x + a.y * b.y + a.z * b.z

/-- Cross product (`Vector.cross`). -/
def Vec3.cross (a b : Vec3) : Vec3 :=
  ⟨a.y * b.z - a.z * b.y, a.z * b.x - a.x * b.z, a.x * b.y - a.y * b.x⟩

/-- Euclidean norm (`Vector.length`). -/
def Vec3.length (v : Vec3) : ℝ := Real.sqrt (Vec3.dot v v)

theorem Vec3.dot_self_nonneg (v : Vec3) : 0 ≤ Vec3.dot v v := by
  unfold Vec3.dot; nlinarith [sq_nonneg v.x, sq_nonneg v.y, sq_nonneg v.z]

theorem Vec3.length_nonneg (v : Vec3) : 0 ≤ Vec3.length v :=
  Real.sqrt_nonneg _

theorem Vec3.length_mul_self (v : Vec3) :
    Vec3.length v * Vec3.length v = Vec3.dot v v :=
  Real.mul_self_sqrt (Vec3.dot_self_nonneg v)

theorem Vec3.length_eq_zero_iff (v : Vec3) :
    Vec3.length v = 0 ↔ Vec3.dot v v = 0 := by
  unfold Vec3.length
  exact Real.sqrt_eq_zero (Vec3.dot_self_nonneg v)

/-- Componentwise minimum of two vectors (the accumulator step of the
min loop in `aabbOfPoints`). -/
def vmin (a b : Vec3) : Vec3 := ⟨min a.x b.x, min a.y b.y, min a.z b.z⟩

/-- Componentwise maximum of two vectors. -/
def vmax (a b : Vec3) : Vec3 := ⟨max a.x b.x, max a.y b.y, max a.z b.z⟩

/-- Axis-aligned bounding box exactly as the code builds it:
`center` and `dimensions` fields of the `AABB` namedtuple. -/
structure AABB where
  center : Vec3
  dimensions : Vec3

/-- `aabbOfPoints` (internal.py lines 49-58): min/max start at `points[0]`
and are folded over the whole point sequence; the box returned is
`AABB(center=(max+min)*0.5, dimensions=max-min)`.  A non-empty point
sequence is passed as its first element plus the rest. -/
def aabbOfPoints (first : Vec3) (rest : List Vec3) : AABB :=
  let lo := (first :: rest).foldl vmin first
  let hi := (first :: rest).foldl vmax first
  ⟨(0.5 : ℝ) • (hi + lo), hi - lo⟩

/-- `aabbIntersectionTest` (lines 60-64): per-axis separating test; the
boxes count as intersecting when on every axis the center distance is at
most `a.dimensions + b.dimensions + tollerance`. -/
def aabbIntersectionTest (a b : AABB) (tollerance : ℝ) : Prop :=
  |a.center.x - b.center.x| ≤ a.dimensions.x + b.dimensions.x + tollerance ∧
  |a.center.y - b.center.y| ≤ a.dimensions.y + b.dimensions.y + tollerance ∧
  |a.center.z - b.center.z| ≤ a.dimensions.z + b.dimensions.z + tollerance

instance aabbIntersectionTest.instDecidable (a b : AABB) (tollerance : ℝ) :
    Decidable (aabbIntersectionTest a b tollerance) :=
  Classical.propDecidable _

/-- `Plane` namedtuple: `normal` and `distance`. -/
structure Plane where
  normal : Vec3
  distance : ℝ

/-- `Circle` namedtuple: `plane`, `center` and `radius` (named `Circle3`: the bare name is taken by the library). -/
structure Circle3 where
  plane : Plane
  center : Vec3
  radius : ℝ

/-- `circleOfTriangle` (lines 28-47): the cross/dot-product circumcircle
formula.  Returns `none` when the cross product of the edge directions has
zero length, otherwise the circle through the three points. -/
def circleOfTriangle (a b c : Vec3) : Option Circle3 :=
  let dirBA := a - b
  let dirCB := b - c
  let dirAC := c - a
  let normal := Vec3.cross dirBA dirCB
  let lengthBA := Vec3.length dirBA
  let lengthCB := Vec3.length dirCB
  let lengthAC := Vec3.length dirAC
  let lengthN := Vec3.length normal
  if lengthN = 0 then none
  else
    let factor := -1 / (2 * lengthN * lengthN)
    let alpha := (Vec3.dot dirBA dirAC) * (lengthCB * lengthCB * factor)
    let beta := (Vec3.dot dirBA dirCB) * (lengthAC * lengthAC * factor)
    let gamma := (Vec3.dot dirAC dirCB) * (lengthBA * lengthBA * factor)
    let center := alpha • a + beta • b + gamma • c
    let radius := (lengthBA * lengthCB * lengthAC) / (2 * lengthN)
    some ⟨⟨(1 / lengthN) • normal, Vec3.dot center normal⟩, center, radius⟩

/-- CubicBezier Bezier segment: the four control points the Python code keeps in
the list `points`. -/
@[ext] structure CubicBezier where
  p0 : Vec3
  p1 : Vec3
  p2 : Vec3
  p3 : Vec3

/-- `bezierPointAt` (lines 66-68): cubic Bernstein blend with `s = 1-t`. -/
def bezierPointAt (P : CubicBezier) (t : ℝ) : Vec3 :=
  let s := 1 - t
  (s * s * s) • P.p0 + (3 * s * s * t) • P.p1 + (3 * s * t * t) • P.p2 +
    (t * t * t) • P.p3

/-- `bezierTangentAt` (lines 70-72): the (1/3-scaled) derivative direction. -/
def bezierTangentAt (P : CubicBezier) (t : ℝ) : Vec3 :=
  let s := 1 - t
  (s * s) • (P.p1 - P.p0) + (2 * s * t) • (P.p2 - P.p1) + (t * t) • (P.p3 - P.p2)

/-- `bezierLength` (lines 75-95): expands `|tangent|^2` as a quartic in `t`,
then accumulates `(prev_value+value)*0.5` for `index = 0 .. samples`, with
`prev_value` seeded from the factor sum (the quartic at `t = 1`), and
returns the accumulator times `3/samples`. -/
def bezierLength (P : CubicBezier) (beginT endT : ℝ) (samples : ℕ) : ℝ :=
  let vec0 := P.p1 - P.p0
  let vec1 := P.p2 - P.p1
  let vec2 := P.p3 - P.p2
  let dot0 := Vec3.dot vec0 vec0
  let dot1 := Vec3.dot vec0 vec1
  let dot2 := Vec3.dot vec0 vec2
  let dot3 := Vec3.dot vec1 vec1
  let dot4 := Vec3.dot vec1 vec2
  let dot5 := Vec3.dot vec2 vec2
  let f0 := dot0
  let f1 := 4 * (dot1 - dot0)
  let f2 := 6 * dot0 + 4 * dot3 + 2 * dot2 - 12 * dot1
  let f3 := 12 * dot1 + 4 * (dot4 - dot0 - dot2) - 8 * dot3
  let f4 := dot0 + dot5 + 2 * dot2 + 4 * (dot3 - dot1 - dot4)
  let value : ℝ → ℝ := fun t =>
    Real.sqrt ((((f4 * t + f3) * t + f2) * t + f1) * t + f0)
  let state :=
    (List.range (samples + 1)).foldl
      (fun acc index =>
        let t := beginT + (endT - beginT) * (index : ℝ) / (samples : ℝ)
        let v := value t
        (acc.1 + (acc.2 + v) * 0.5, v))
      ((0 : ℝ), Real.sqrt (f4 + f3 + f2 + f1 + f0))
  state.1 * 3 / (samples : ℝ)

/-- `bezierSliceFromTo` (lines 97-103): restriction of the cubic to
`[minParam, maxParam]` by the point/tangent re-parameterization. -/
def bezierSliceFromTo (P : CubicBezier) (minParam maxParam : ℝ) : CubicBezier :=
  let fromP := bezierPointAt P minParam
  let fromT := bezierTangentAt P minParam
  let toP := bezierPointAt P maxParam
  let toT := bezierTangentAt P maxParam
  let paramDiff := maxParam - minParam
  ⟨fromP, fromP + paramDiff • fromT, toP - paramDiff • toT, toP⟩

/-- Candidate rectangle of the joint parameter square: the 4-element list
`[aMin, aMax, bMin, bMax]` the broad phase appends to `solutions`. -/
structure Cand where
  aMin : ℝ
  aMax : ℝ
  bMin : ℝ
  bMax : ℝ

/-- `bezierIntersectionBroadPhase` (lines 105-117), in state-passing form:
the list of candidate rectangles appended to `solutions`, in call order.
Note the four recursive calls of the Python source pass no `tollerance`
argument, so they run with the default `0.001`. -/
def bezierIntersectionBroadPhase (depth : ℕ) (pointsA pointsB : CubicBezier)
    (aMin aMax bMin bMax tollerance : ℝ) : List Cand :=
  if aabbIntersectionTest
      (aabbOfPoints (bezierSliceFromTo pointsA aMin aMax).p0
        [(bezierSliceFromTo pointsA aMin aMax).p1,
         (bezierSliceFromTo pointsA aMin aMax).p2,
         (bezierSliceFromTo pointsA aMin aMax).p3])
      (aabbOfPoints (bezierSliceFromTo pointsB bMin bMax).p0
        [(bezierSliceFromTo pointsB bMin bMax).p1,
         (bezierSliceFromTo pointsB bMin bMax).p2,
         (bezierSliceFromTo pointsB bMin bMax).p3])
      tollerance
  then
    match depth with
    | 0 => [⟨aMin, aMax, bMin, bMax⟩]
    | d + 1 =>
      let aMid := (aMin + aMax) * 0.5
      let bMid := (bMin + bMax) * 0.5
      bezierIntersectionBroadPhase d pointsA pointsB aMin aMid bMin bMid 0.001 ++
      bezierIntersectionBroadPhase d pointsA pointsB aMin aMid bMid bMax 0.001 ++
      bezierIntersectionBroadPhase d pointsA pointsB aMid aMax bMin bMid 0.001 ++
      bezierIntersectionBroadPhase d pointsA pointsB aMid aMax bMid bMax 0.001
  else []

/-- The broad phase as the spec describes it: identical to
`bezierIntersectionBroadPhase` except that the caller's tolerance is
passed unchanged into all four recursive quadrant calls.  This definition
follows the spec's words and exists only to be compared with the
definition transcribed from the source. -/
def broadPhaseSpecPropagated (depth : ℕ) (pointsA pointsB : CubicBezier)
    (aMin aMax bMin bMax tollerance : ℝ) : List Cand :=
  if aabbIntersectionTest
      (aabbOfPoints (bezierSliceFromTo pointsA aMin aMax).p0
        [(bezierSliceFromTo pointsA aMin aMax).p1,
         (bezierSliceFromTo pointsA aMin aMax).p2,
         (bezierSliceFromTo pointsA aMin aMax).p3])
      (aabbOfPoints (bezierSliceFromTo pointsB bMin bMax).p0
        [(bezierSliceFromTo pointsB bMin bMax).p1,
         (bezierSliceFromTo pointsB bMin bMax).p2,
         (bezierSliceFromTo pointsB bMin bMax).p3])
      tollerance
  then
    match depth with
    | 0 => [⟨aMin, aMax, bMin, bMax⟩]
    | d + 1 =>
      let aMid := (aMin + aMax) * 0.5
      let bMid := (bMin + bMax) * 0.5
      broadPhaseSpecPropagated d pointsA pointsB aMin aMid bMin bMid tollerance ++
      broadPhaseSpecPropagated d pointsA pointsB aMin aMid bMid bMax tollerance ++
      broadPhaseSpecPropagated d pointsA pointsB aMid aMax bMin bMid tollerance ++
      broadPhaseSpecPropagated d pointsA pointsB aMid aMax bMid bMax tollerance
  else []

/-- A refined solution `[paramA, paramB, distance]` as stored in
`solutions`; the distance lives in `WithTop ℝ` because the dedup pass of
`bezierIntersection` overwrites it with `float('inf')` (here `⊤`). -/
structure Sol where
  pa : ℝ
  pb : ℝ
  dist : WithTop ℝ

instance : Inhabited Sol := ⟨⟨0, 0, 0⟩⟩

/-- One iteration of the narrow-phase `while` body (lines 125-147): the
shrunken rectangle together with the `minDist` computed this iteration. -/
def narrowStep (pointsA pointsB : CubicBezier) (st : Cand) : Cand × ℝ :=
  let aMid := (st.aMin + st.aMax) * 0.5
  let bMid := (st.bMin + st.bMax) * 0.5
  let a1 := bezierPointAt pointsA ((st.aMin + aMid) * 0.5)
  let a2 := bezierPointAt pointsA ((aMid + st.aMax) * 0.5)
  let b1 := bezierPointAt pointsB ((st.bMin + bMid) * 0.5)
  let b2 := bezierPointAt pointsB ((bMid + st.bMax) * 0.5)
  let a1b1Dist := Vec3.length (a1 - b1)
  let a2b1Dist := Vec3.length (a2 - b1)
  let a1b2Dist := Vec3.length (a1 - b2)
  let a2b2Dist := Vec3.length (a2 - b2)
  let minDist := min (min (min a1b1Dist a2b1Dist) a1b2Dist) a2b2Dist
  if a1b1Dist = minDist then (⟨st.aMin, aMid, st.bMin, bMid⟩, minDist)
  else if a2b1Dist = minDist then (⟨aMid, st.aMax, st.bMin, bMid⟩, minDist)
  else if a1b2Dist = minDist then (⟨st.aMin, aMid, bMid, st.bMax⟩, minDist)
  else (⟨aMid, st.aMax, bMid, st.bMax⟩, minDist)

/-- The narrow-phase `while` loop (lines 124-148) as a fuel-indexed
recursion.  `last` carries the `minDist` of the previous iteration
(`none` before the first iteration, exactly as the Python name `minDist`
is unbound until the loop body has run).  The result is `none` either
when the fuel runs out with the loop condition still true, or when the
loop condition is false on entry and the Python code would read the
unbound `minDist` (its failure mode). -/
def narrowGo (pointsA pointsB : CubicBezier) (tollerance : ℝ) :
    ℕ → Cand → Option ℝ → Option Sol
  | fuel, st, last =>
    if st.aMax - st.aMin > tollerance ∨ st.bMax - st.bMin > tollerance then
      match fuel with
      | 0 => none
      | f + 1 =>
        let p := narrowStep pointsA pointsB st
        narrowGo pointsA pointsB tollerance f p.1 (some p.2)
    else
      match last with
      | none => none
      | some d => some ⟨st.aMin, st.bMin, (d : WithTop ℝ)⟩

/-- Fuel given to the narrow phase by the orchestrator's embedding; the
termination theorems show any fuel of at least 13 already suffices for
every candidate the depth-8 broad phase can produce. -/
def narrowFuel : ℕ := 64

/-- `bezierIntersectionNarrowPhase` (lines 119-148) with its default
`tollerance=0.000001`, via `narrowGo`. -/
def bezierIntersectionNarrowPhase (broadPhase : Cand)
    (pointsA pointsB : CubicBezier) (tollerance : ℝ) : Option Sol :=
  narrowGo pointsA pointsB tollerance narrowFuel broadPhase none

/-- The solution at index `i` of the `solutions` list (out-of-range reads
never happen in the runs we prove about; they fall back to the default). -/
def solAt (sols : List Sol) (i : ℕ) : Sol := sols.getD i default

/-- `solutions[i][2] = float('inf')`: overwrite the distance at index `i`
with the discarded sentinel. -/
def markInf (sols : List Sol) (i : ℕ) : List Sol :=
  sols.set i ⟨(solAt sols i).pa, (solAt sols i).pb, ⊤⟩

/-- The inner `for otherIndex` loop of the dedup pass (lines 155-167) for
a fixed `index = i`, over the remaining `otherIndex` values `js`.  The
`break` when `solutions[index][2] == inf` returns immediately; `continue`
skips to the next index. -/
def dedupInner (sols : List Sol) (i : ℕ) : List ℕ → List Sol
  | [] => sols
  | j :: js =>
    if (solAt sols i).dist = ⊤ then sols
    else if i = j ∨ (solAt sols j).dist = ⊤ then dedupInner sols i js
    else
      let diffA := (solAt sols i).pa - (solAt sols j).pa
      let diffB := (solAt sols i).pb - (solAt sols j).pb
      if diffA * diffA + diffB * diffB < 0.01 then
        if (solAt sols i).dist < (solAt sols j).dist then
          dedupInner (markInf sols j) i js
        else
          dedupInner (markInf sols i) i js
      else dedupInner sols i js

/-- The outer `for index` loop of the dedup pass. -/
def dedupOuter (sols : List Sol) : List ℕ → List Sol
  | [] => sols
  | i :: is => dedupOuter (dedupInner sols i (List.range sols.length)) is

/-- The all-pairs dedup pass of `bezierIntersection` (lines 155-167):
both loops run over `range(0, len(solutions))`; the list length never
changes, only distances are overwritten with `⊤`. -/
def dedup (sols : List Sol) : List Sol := dedupOuter sols (List.range sols.length)

/-- Run the narrow phase over every candidate (the loop at lines
153-154); `none` as soon as one call fails to produce a value. -/
def narrowAll (pointsA pointsB : CubicBezier) : List Cand → Option (List Sol)
  | [] => some []
  | c :: cs =>
    match bezierIntersectionNarrowPhase c pointsA pointsB 0.000001,
        narrowAll pointsA pointsB cs with
    | some s, some ss => some (s :: ss)
    | _, _ => none

/-- `bezierIntersection` (lines 150-173).  The Python function appends
into caller-supplied `paramsA`/`paramsB` lists and sorts them; the spec's
interface (`intersect(curveA, curveB, tolerance) -> (paramsA, paramsB)`)
starts from empty lists, which is what is modelled.  Note line 152 calls
the broad phase without a `tollerance` argument, so the broad phase always
runs at the default `0.001` whatever `tollerance` is passed here. -/
def bezierIntersection (pointsA pointsB : CubicBezier) (tollerance : ℝ) :
    Option (List ℝ × List ℝ) :=
  let solutions := bezierIntersectionBroadPhase 8 pointsA pointsB 0 1 0 1 0.001
  match narrowAll pointsA pointsB solutions with
  | none => none
  | some sols =>
    let sols2 := dedup sols
    let kept := sols2.filter fun s => s.dist < ((tollerance : ℝ) : WithTop ℝ)
    some (List.insertionSort (fun x y => x ≤ y) (kept.map Sol.pa),
          List.insertionSort (fun x y => x ≤ y) (kept.map Sol.pb))

/-- Modelled from the spec wording of claim C4 (spec 4.3), for comparison
with `bezierLength`: the composite trapezoidal rule for the speed function
`|tangentAt|` over `[tMin, tMax]` with `samples` equal subintervals —
`samples+1` uniformly spaced evaluation points, interior points weighted
once, the two endpoints weighted one half, all times the subinterval
width `(tMax - tMin)/samples`. -/
def trapezoidArcLengthSpec (P : CubicBezier) (tMin tMax : ℝ) (samples : ℕ) : ℝ :=
  ((tMax - tMin) / (samples : ℝ)) *
    (List.range (samples + 1)).foldl
      (fun acc index =>
        acc + (if index = 0 ∨ index = samples then (0.5 : ℝ) else 1) *
          Vec3.length
            (bezierTangentAt P (tMin + (tMax - tMin) * (index : ℝ) / (samples : ℝ))))
      0

/-! ### Bounding-box lemmas -/

theorem foldl_vmin_le (f : Vec3 → ℝ) (hf : ∀ a b, f (vmin a b) = min (f a) (f b))
    (l : List Vec3) (init : Vec3) :
    f (l.foldl vmin init) ≤ f init ∧ ∀ p ∈ l, f (l.foldl vmin init) ≤ f p := by
  induction l generalizing init with
  | nil => exact ⟨le_refl _, by simp⟩
  | cons a t ih =>
    have h := ih (vmin init a)
    rw [List.foldl_cons]
    refine ⟨h.1.trans ?_, ?_⟩
    · rw [hf]; exact min_le_left _ _
    · intro p hp
      rcases List.mem_cons.1 hp with rfl | hp
      · exact h.1.trans (by rw [hf]; exact min_le_right _ _)
      · exact h.2 p hp

theorem foldl_vmax_ge (f : Vec3 → ℝ) (hf : ∀ a b, f (vmax a b) = max (f a) (f b))
    (l : List Vec3) (init : Vec3) :
    f init ≤ f (l.foldl vmax init) ∧ ∀ p ∈ l, f p ≤ f (l.foldl vmax init) := by
  induction l generalizing init with
  | nil => exact ⟨le_refl _, by simp⟩
  | cons a t ih =>
    have h := ih (vmax init a)
    rw [List.foldl_cons]
    refine ⟨le_trans ?_ h.1, ?_⟩
    · rw [hf]; exact le_max_left _ _
    · intro p hp
      rcases List.mem_cons.1 hp with rfl | hp
      · exact le_trans (by rw [hf]; exact le_max_right _ _) h.1
      · exact h.2 p hp

theorem vmin_x (a b : Vec3) : (vmin a b).x = min a.x b.x := rfl

theorem vmin_y (a b : Vec3) : (vmin a b).y = min a.y b.y := rfl

theorem vmin_z (a b : Vec3) : (vmin a b).z = min a.z b.z := rfl

theorem vmax_x (a b : Vec3) : (vmax a b).x = max a.x b.x := rfl

theorem vmax_y (a b : Vec3) : (vmax a b).y = max a.y b.y := rfl

theorem vmax_z (a b : Vec3) : (vmax a b).z = max a.z b.z := rfl

/-- Every input point of `aabbOfPoints` is within half a `dimensions`
of the center on each axis (so the `dimensions` field is the full extent,
twice the half-extent). -/
theorem aabbOfPoints_contains (first : Vec3) (rest : List Vec3) (p : Vec3)
    (hp : p = first ∨ p ∈ rest) :
    |(aabbOfPoints first rest).center.x - p.x| ≤ (aabbOfPoints first rest).dimensions.x / 2 ∧
    |(aabbOfPoints first rest).center.y - p.y| ≤ (aabbOfPoints first rest).dimensions.y / 2 ∧
    |(aabbOfPoints first rest).center.z - p.z| ≤ (aabbOfPoints first rest).dimensions.z / 2 := by
  have hmem : p ∈ first :: rest := by
    rcases hp with rfl | hp
    · exact List.mem_cons_self _ _
    · exact List.mem_cons_of_mem _ hp
  have hlox := (foldl_vmin_le Vec3.x vmin_x (first :: rest) first).2 p hmem
  have hloy := (foldl_vmin_le Vec3.y vmin_y (first :: rest) first).2 p hmem
  have hloz := (foldl_vmin_le Vec3.z vmin_z (first :: rest) first).2 p hmem
  have hhix := (foldl_vmax_ge Vec3.x vmax_x (first :: rest) first).2 p hmem
  have hhiy := (foldl_vmax_ge Vec3.y vmax_y (first :: rest) first).2 p hmem
  have hhiz := (foldl_vmax_ge Vec3.z vmax_z (first :: rest) first).2 p hmem
  unfold aabbOfPoints
  refine ⟨abs_le.2 ⟨?_, ?_⟩, abs_le.2 ⟨?_, ?_⟩, abs_le.2 ⟨?_, ?_⟩⟩ <;>
    simp only [Vec3.smul_x, Vec3.smul_y, Vec3.smul_z, Vec3.add_x, Vec3.add_y,
      Vec3.add_z, Vec3.sub_x, Vec3.sub_y, Vec3.sub_z] <;> linarith

/-- The `dimensions` of `aabbOfPoints` are non-negative on each axis. -/
theorem aabbOfPoints_dims_nonneg (first : Vec3) (rest : List Vec3) :
    0 ≤ (aabbOfPoints first rest).dimensions.x ∧
    0 ≤ (aabbOfPoints first rest).dimensions.y ∧
    0 ≤ (aabbOfPoints first rest).dimensions.z := by
  have hlox := (foldl_vmin_le Vec3.x vmin_x (first :: rest) first).1
  have hloy := (foldl_vmin_le Vec3.y vmin_y (first :: rest) first).1
  have hloz := (foldl_vmin_le Vec3.z vmin_z (first :: rest) first).1
  have hhix := (foldl_vmax_ge Vec3.x vmax_x (first :: rest) first).1
  have hhiy := (foldl_vmax_ge Vec3.y vmax_y (first :: rest) first).1
  have hhiz := (foldl_vmax_ge Vec3.z vmax_z (first :: rest) first).1
  unfold aabbOfPoints
  refine ⟨?_, ?_, ?_⟩ <;>
    simp only [Vec3.sub_x, Vec3.sub_y, Vec3.sub_z] <;> linarith

/-! ### Claim C9: the identity slice -/

/-- C9 (confirmed): for every cubic curve, `bezierSliceFromTo(points, 0, 1)`
returns exactly the original four control points `[p0, p1, p2, p3]`. -/
theorem slice_zero_one_identity (P : CubicBezier) : bezierSliceFromTo P 0 1 = P := by
  unfold bezierSliceFromTo bezierPointAt bezierTangentAt
  ext <;> simp

/-! ### Claim C3: what aabbOfPoints actually returns -/

/-- C3 counterexample: on the two-point sequence `[(0,0,0), (2,0,0)]` the
box has `dimensions.x = 2`, the full extent `max - min`, not the claimed
half-extent `(max - min)/2 = 1`. -/
theorem aabb_dimensions_not_half_extent :
    (aabbOfPoints ⟨0, 0, 0⟩ [⟨2, 0, 0⟩]).dimensions.x = 2 ∧
    ¬ (aabbOfPoints ⟨0, 0, 0⟩ [⟨2, 0, 0⟩]).dimensions.x = (2 - 0) / 2 := by
  have h : (aabbOfPoints ⟨0, 0, 0⟩ [⟨2, 0, 0⟩]).dimensions.x = 2 := by
    unfold aabbOfPoints
    simp [vmin, vmax]
  exact ⟨h, by rw [h]; norm_num⟩

/-- C3 (corrected): for every non-empty point sequence, `aabbOfPoints`
returns the box spanning exactly from the componentwise minimum to the
componentwise maximum, with `center = (min+max)/2` but with `dimensions`
the FULL componentwise extent `max - min` (non-negative); consequently
every input point lies within `center ± dimensions/2` on each axis (and a
fortiori within `center ± dimensions`), and the intersection test of 4.2
compares center distances against sums of full extents plus tolerance. -/
theorem aabbOfPoints_characterization (first : Vec3) (rest : List Vec3) :
    (aabbOfPoints first rest).center - (0.5 : ℝ) • (aabbOfPoints first rest).dimensions =
      (first :: rest).foldl vmin first ∧
    (aabbOfPoints first rest).center + (0.5 : ℝ) • (aabbOfPoints first rest).dimensions =
      (first :: rest).foldl vmax first ∧
    (0 ≤ (aabbOfPoints first rest).dimensions.x ∧
     0 ≤ (aabbOfPoints first rest).dimensions.y ∧
     0 ≤ (aabbOfPoints first rest).dimensions.z) ∧
    ∀ p, p = first ∨ p ∈ rest →
      |(aabbOfPoints first rest).center.x - p.x| ≤ (aabbOfPoints first rest).dimensions.x / 2 ∧
      |(aabbOfPoints first rest).center.y - p.y| ≤ (aabbOfPoints first rest).dimensions.y / 2 ∧
      |(aabbOfPoints first rest).center.z - p.z| ≤ (aabbOfPoints first rest).dimensions.z / 2 := by
  refine ⟨?_, ?_, aabbOfPoints_dims_nonneg first rest, aabbOfPoints_contains first rest⟩ <;>
  · unfold aabbOfPoints
    ext <;> simp <;> ring

/-! ### Claim C1: the broad phase never prunes an exact intersection -/

/-- The slice is the exact restriction of the curve: evaluating the
re-parameterized cubic at `τ` gives the original curve at
`minParam + τ*(maxParam - minParam)`. -/
theorem bezierSliceFromTo_eval (P : CubicBezier) (u v τ : ℝ) :
    bezierPointAt (bezierSliceFromTo P u v) τ = bezierPointAt P (u + τ * (v - u)) := by
  unfold bezierSliceFromTo bezierPointAt bezierTangentAt
  ext <;> simp <;> ring

/-- A convex combination of four reals stays between a common lower and
upper bound. -/
theorem convex4_bound (w0 w1 w2 w3 x0 x1 x2 x3 m M : ℝ)
    (hs : w0 + w1 + w2 + w3 = 1)
    (h0 : 0 ≤ w0) (h1 : 0 ≤ w1) (h2 : 0 ≤ w2) (h3 : 0 ≤ w3)
    (hm0 : m ≤ x0) (hm1 : m ≤ x1) (hm2 : m ≤ x2) (hm3 : m ≤ x3)
    (hM0 : x0 ≤ M) (hM1 : x1 ≤ M) (hM2 : x2 ≤ M) (hM3 : x3 ≤ M) :
    m ≤ w0 * x0 + w1 * x1 + w2 * x2 + w3 * x3 ∧
      w0 * x0 + w1 * x1 + w2 * x2 + w3 * x3 ≤ M := by
  have hsm : w0 * m + w1 * m + w2 * m + w3 * m = m := by linear_combination m * hs
  have hsM : w0 * M + w1 * M + w2 * M + w3 * M = M := by linear_combination M * hs
  have t0 := mul_le_mul_of_nonneg_left hm0 h0
  have t1 := mul_le_mul_of_nonneg_left hm1 h1
  have t2 := mul_le_mul_of_nonneg_left hm2 h2
  have t3 := mul_le_mul_of_nonneg_left hm3 h3
  have u0 := mul_le_mul_of_nonneg_left hM0 h0
  have u1 := mul_le_mul_of_nonneg_left hM1 h1
  have u2 := mul_le_mul_of_nonneg_left hM2 h2
  have u3 := mul_le_mul_of_nonneg_left hM3 h3
  constructor <;> linarith

/-- For `0 ≤ τ ≤ 1` the point of a cubic lies within half the
`dimensions` of the bounding box of its four control points, on each
axis (convex-hull property of the Bernstein basis). -/
theorem bezierPointAt_in_aabb (Q : CubicBezier) (τ : ℝ) (ht0 : 0 ≤ τ) (ht1 : τ ≤ 1) :
    |(aabbOfPoints Q.p0 [Q.p1, Q.p2, Q.p3]).center.x - (bezierPointAt Q τ).x| ≤
      (aabbOfPoints Q.p0 [Q.p1, Q.p2, Q.p3]).dimensions.x / 2 ∧
    |(aabbOfPoints Q.p0 [Q.p1, Q.p2, Q.p3]).center.y - (bezierPointAt Q τ).y| ≤
      (aabbOfPoints Q.p0 [Q.p1, Q.p2, Q.p3]).dimensions.y / 2 ∧
    |(aabbOfPoints Q.p0 [Q.p1, Q.p2, Q.p3]).center.z - (bezierPointAt Q τ).z| ≤
      (aabbOfPoints Q.p0 [Q.p1, Q.p2, Q.p3]).dimensions.z / 2 := by
  have hs : 0 ≤ 1 - τ := by linarith
  have hw0 : 0 ≤ (1 - τ) * (1 - τ) * (1 - τ) := mul_nonneg (mul_nonneg hs hs) hs
  have hw1 : 0 ≤ 3 * (1 - τ) * (1 - τ) * τ :=
    mul_nonneg (mul_nonneg (mul_nonneg (by norm_num) hs) hs) ht0
  have hw2 : 0 ≤ 3 * (1 - τ) * τ * τ :=
    mul_nonneg (mul_nonneg (mul_nonneg (by norm_num) hs) ht0) ht0
  have hw3 : 0 ≤ τ * τ * τ := mul_nonneg (mul_nonneg ht0 ht0) ht0
  have hsum : (1 - τ) * (1 - τ) * (1 - τ) + 3 * (1 - τ) * (1 - τ) * τ +
      3 * (1 - τ) * τ * τ + τ * τ * τ = 1 := by ring
  have hmem0 : Q.p0 ∈ Q.p0 :: [Q.p1, Q.p2, Q.p3] := by simp
  have hmem1 : Q.p1 ∈ Q.p0 :: [Q.p1, Q.p2, Q.p3] := by simp
  have hmem2 : Q.p2 ∈ Q.p0 :: [Q.p1, Q.p2, Q.p3] := by simp
  have hmem3 : Q.p3 ∈ Q.p0 :: [Q.p1, Q.p2, Q.p3] := by simp
  refine ⟨?_, ?_, ?_⟩
  · have hl := foldl_vmin_le Vec3.x vmin_x (Q.p0 :: [Q.p1, Q.p2, Q.p3]) Q.p0
    have hh := foldl_vmax_ge Vec3.x vmax_x (Q.p0 :: [Q.p1, Q.p2, Q.p3]) Q.p0
    have he : (bezierPointAt Q τ).x =
        ((1 - τ) * (1 - τ) * (1 - τ)) * Q.p0.x + (3 * (1 - τ) * (1 - τ) * τ) * Q.p1.x +
        (3 * (1 - τ) * τ * τ) * Q.p2.x + (τ * τ * τ) * Q.p3.x := by
      unfold bezierPointAt; simp
    have hb := convex4_bound _ _ _ _ _ _ _ _ _ _ hsum hw0 hw1 hw2 hw3
      (hl.2 Q.p0 hmem0) (hl.2 Q.p1 hmem1) (hl.2 Q.p2 hmem2) (hl.2 Q.p3 hmem3)
      (hh.2 Q.p0 hmem0) (hh.2 Q.p1 hmem1) (hh.2 Q.p2 hmem2) (hh.2 Q.p3 hmem3)
    rw [he]
    unfold aabbOfPoints
    simp only [Vec3.smul_x, Vec3.add_x, Vec3.sub_x]
    rw [abs_le]
    constructor <;> linarith [hb.1, hb.2]
  · have hl := foldl_vmin_le Vec3.y vmin_y (Q.p0 :: [Q.p1, Q.p2, Q.p3]) Q.p0
    have hh := foldl_vmax_ge Vec3.y vmax_y (Q.p0 :: [Q.p1, Q.p2, Q.p3]) Q.p0
    have he : (bezierPointAt Q τ).y =
        ((1 - τ) * (1 - τ) * (1 - τ)) * Q.p0.y + (3 * (1 - τ) * (1 - τ) * τ) * Q.p1.y +
        (3 * (1 - τ) * τ * τ) * Q.p2.y + (τ * τ * τ) * Q.p3.y := by
      unfold bezierPointAt; simp
    have hb := convex4_bound _ _ _ _ _ _ _ _ _ _ hsum hw0 hw1 hw2 hw3
      (hl.2 Q.p0 hmem0) (hl.2 Q.p1 hmem1) (hl.2 Q.p2 hmem2) (hl.2 Q.p3 hmem3)
      (hh.2 Q.p0 hmem0) (hh.2 Q.p1 hmem1) (hh.2 Q.p2 hmem2) (hh.2 Q.p3 hmem3)
    rw [he]
    unfold aabbOfPoints
    simp only [Vec3.smul_y, Vec3.add_y, Vec3.sub_y]
    rw [abs_le]
    constructor <;> linarith [hb.1, hb.2]
  · have hl := foldl_vmin_le Vec3.z vmin_z (Q.p0 :: [Q.p1, Q.p2, Q.p3]) Q.p0
    have hh := foldl_vmax_ge Vec3.z vmax_z (Q.p0 :: [Q.p1, Q.p2, Q.p3]) Q.p0
    have he : (bezierPointAt Q τ).z =
        ((1 - τ) * (1 - τ) * (1 - τ)) * Q.p0.z + (3 * (1 - τ) * (1 - τ) * τ) * Q.p1.z +
        (3 * (1 - τ) * τ * τ) * Q.p2.z + (τ * τ * τ) * Q.p3.z := by
      unfold bezierPointAt; simp
    have hb := convex4_bound _ _ _ _ _ _ _ _ _ _ hsum hw0 hw1 hw2 hw3
      (hl.2 Q.p0 hmem0) (hl.2 Q.p1 hmem1) (hl.2 Q.p2 hmem2) (hl.2 Q.p3 hmem3)
      (hh.2 Q.p0 hmem0) (hh.2 Q.p1 hmem1) (hh.2 Q.p2 hmem2) (hh.2 Q.p3 hmem3)
    rw [he]
    unfold aabbOfPoints
    simp only [Vec3.smul_z, Vec3.add_z, Vec3.sub_z]
    rw [abs_le]
    constructor <;> linarith [hb.1, hb.2]

/-- A curve point with parameter inside `[u, v]` lies inside the bounding
box of the slice `[u, v]`'s control points (half-dimension bound per axis). -/
theorem point_in_slice_box (P : CubicBezier) (u v w : ℝ) (huw : u ≤ w) (hwv : w ≤ v) :
    |(aabbOfPoints (bezierSliceFromTo P u v).p0
        [(bezierSliceFromTo P u v).p1, (bezierSliceFromTo P u v).p2,
         (bezierSliceFromTo P u v).p3]).center.x - (bezierPointAt P w).x| ≤
      (aabbOfPoints (bezierSliceFromTo P u v).p0
        [(bezierSliceFromTo P u v).p1, (bezierSliceFromTo P u v).p2,
         (bezierSliceFromTo P u v).p3]).dimensions.x / 2 ∧
    |(aabbOfPoints (bezierSliceFromTo P u v).p0
        [(bezierSliceFromTo P u v).p1, (bezierSliceFromTo P u v).p2,
         (bezierSliceFromTo P u v).p3]).center.y - (bezierPointAt P w).y| ≤
      (aabbOfPoints (bezierSliceFromTo P u v).p0
        [(bezierSliceFromTo P u v).p1, (bezierSliceFromTo P u v).p2,
         (bezierSliceFromTo P u v).p3]).dimensions.y / 2 ∧
    |(aabbOfPoints (bezierSliceFromTo P u v).p0
        [(bezierSliceFromTo P u v).p1, (bezierSliceFromTo P u v).p2,
         (bezierSliceFromTo P u v).p3]).center.z - (bezierPointAt P w).z| ≤
      (aabbOfPoints (bezierSliceFromTo P u v).p0
        [(bezierSliceFromTo P u v).p1, (bezierSliceFromTo P u v).p2,
         (bezierSliceFromTo P u v).p3]).dimensions.z / 2 := by
  rcases eq_or_lt_of_le (huw.trans hwv) with heq | hlt
  · -- degenerate slice u = v: then w = u and the curve point is the
    -- slice evaluated at parameter 0
    have hw : w = u := le_antisymm (heq ▸ hwv) huw
    have he : bezierPointAt P w = bezierPointAt (bezierSliceFromTo P u v) 0 := by
      rw [bezierSliceFromTo_eval, hw]; norm_num
    rw [he]
    exact bezierPointAt_in_aabb (bezierSliceFromTo P u v) 0 (le_refl 0) zero_le_one
  · -- proper slice: reparameterize w into τ ∈ [0,1]
    set τ := (w - u) / (v - u) with hτ
    have hvu : 0 < v - u := by linarith
    have ht0 : 0 ≤ τ := div_nonneg (by linarith) (le_of_lt hvu)
    have ht1 : τ ≤ 1 := by
      rw [hτ, div_le_one hvu]; linarith
    have he : bezierPointAt P w = bezierPointAt (bezierSliceFromTo P u v) τ := by
      rw [bezierSliceFromTo_eval]
      congr 1
      rw [hτ]
      field_simp
    rw [he]
    exact bezierPointAt_in_aabb (bezierSliceFromTo P u v) τ ht0 ht1

/-- Two boxes with non-negative dimensions holding a common point within
half their dimensions pass the intersection test for every tolerance ≥ 0. -/
theorem aabbIntersectionTest_of_common_point (bA bB : AABB) (tollerance : ℝ) (p : Vec3)
    (hA : |bA.center.x - p.x| ≤ bA.dimensions.x / 2 ∧
          |bA.center.y - p.y| ≤ bA.dimensions.y / 2 ∧
          |bA.center.z - p.z| ≤ bA.dimensions.z / 2)
    (hB : |bB.center.x - p.x| ≤ bB.dimensions.x / 2 ∧
          |bB.center.y - p.y| ≤ bB.dimensions.y / 2 ∧
          |bB.center.z - p.z| ≤ bB.dimensions.z / 2)
    (hdA : 0 ≤ bA.dimensions.x ∧ 0 ≤ bA.dimensions.y ∧ 0 ≤ bA.dimensions.z)
    (hdB : 0 ≤ bB.dimensions.x ∧ 0 ≤ bB.dimensions.y ∧ 0 ≤ bB.dimensions.z)
    (htol : 0 ≤ tollerance) :
    aabbIntersectionTest bA bB tollerance := by
  refine ⟨?_, ?_, ?_⟩
  · calc |bA.center.x - bB.center.x| ≤ |bA.center.x - p.x| + |p.x - bB.center.x| :=
          abs_sub_le _ _ _
    _ ≤ bA.dimensions.x / 2 + bB.dimensions.x / 2 := by
          rw [abs_sub_comm p.x]; exact add_le_add hA.1 hB.1
    _ ≤ bA.dimensions.x + bB.dimensions.x + tollerance := by
          rcases hdA with ⟨h1, -, -⟩; rcases hdB with ⟨h2, -, -⟩; linarith
  · calc |bA.center.y - bB.center.y| ≤ |bA.center.y - p.y| + |p.y - bB.center.y| :=
          abs_sub_le _ _ _
    _ ≤ bA.dimensions.y / 2 + bB.dimensions.y / 2 := by
          rw [abs_sub_comm p.y]; exact add_le_add hA.2.1 hB.2.1
    _ ≤ bA.dimensions.y + bB.dimensions.y + tollerance := by
          rcases hdA with ⟨-, h1, -⟩; rcases hdB with ⟨-, h2, -⟩; linarith
  · calc |bA.center.z - bB.center.z| ≤ |bA.center.z - p.z| + |p.z - bB.center.z| :=
          abs_sub_le _ _ _
    _ ≤ bA.dimensions.z / 2 + bB.dimensions.z / 2 := by
          rw [abs_sub_comm p.z]; exact add_le_add hA.2.2 hB.2.2
    _ ≤ bA.dimensions.z + bB.dimensions.z + tollerance := by
          rcases hdA with ⟨-, -, h1⟩; rcases hdB with ⟨-, -, h2⟩; linarith

/-- If the two curves meet at parameters `(s, t)` inside the rectangle,
the AABB overlap test between the two slice boxes passes for every
tolerance ≥ 0. -/
theorem slice_test_passes (A B : CubicBezier) (s t aMin aMax bMin bMax tollerance : ℝ)
    (hint : bezierPointAt A s = bezierPointAt B t)
    (has : aMin ≤ s) (hsa : s ≤ aMax) (hbt : bMin ≤ t) (htb : t ≤ bMax)
    (htol : 0 ≤ tollerance) :
    aabbIntersectionTest
      (aabbOfPoints (bezierSliceFromTo A aMin aMax).p0
        [(bezierSliceFromTo A aMin aMax).p1, (bezierSliceFromTo A aMin aMax).p2,
         (bezierSliceFromTo A aMin aMax).p3])
      (aabbOfPoints (bezierSliceFromTo B bMin bMax).p0
        [(bezierSliceFromTo B bMin bMax).p1, (bezierSliceFromTo B bMin bMax).p2,
         (bezierSliceFromTo B bMin bMax).p3]) tollerance := by
  have hA := point_in_slice_box A aMin aMax s has hsa
  have hB := point_in_slice_box B bMin bMax t hbt htb
  rw [← hint] at hB
  exact aabbIntersectionTest_of_common_point _ _ _ (bezierPointAt A s) hA hB
    (aabbOfPoints_dims_nonneg _ _) (aabbOfPoints_dims_nonneg _ _) htol

/-- Unfolding of the broad phase at positive depth when the overlap test
passes: the four quadrant recursions, each at the default tolerance 0.001
(the Python recursion passes no tolerance argument). -/
theorem broadPhase_succ_eq (d : ℕ) (A B : CubicBezier) (aMin aMax bMin bMax tollerance : ℝ)
    (htest : aabbIntersectionTest
      (aabbOfPoints (bezierSliceFromTo A aMin aMax).p0
        [(bezierSliceFromTo A aMin aMax).p1, (bezierSliceFromTo A aMin aMax).p2,
         (bezierSliceFromTo A aMin aMax).p3])
      (aabbOfPoints (bezierSliceFromTo B bMin bMax).p0
        [(bezierSliceFromTo B bMin bMax).p1, (bezierSliceFromTo B bMin bMax).p2,
         (bezierSliceFromTo B bMin bMax).p3]) tollerance) :
    bezierIntersectionBroadPhase (d + 1) A B aMin aMax bMin bMax tollerance =
      bezierIntersectionBroadPhase d A B aMin ((aMin + aMax) * 0.5)
        bMin ((bMin + bMax) * 0.5) 0.001 ++
      bezierIntersectionBroadPhase d A B aMin ((aMin + aMax) * 0.5)
        ((bMin + bMax) * 0.5) bMax 0.001 ++
      bezierIntersectionBroadPhase d A B ((aMin + aMax) * 0.5) aMax
        bMin ((bMin + bMax) * 0.5) 0.001 ++
      bezierIntersectionBroadPhase d A B ((aMin + aMax) * 0.5) aMax
        ((bMin + bMax) * 0.5) bMax 0.001 := by
  conv_lhs => rw [bezierIntersectionBroadPhase]
  rw [if_pos htest]

/-- Unfolding of the broad phase at depth 0 when the overlap test passes:
the rectangle is recorded. -/
theorem broadPhase_zero_eq (A B : CubicBezier) (aMin aMax bMin bMax tollerance : ℝ)
    (htest : aabbIntersectionTest
      (aabbOfPoints (bezierSliceFromTo A aMin aMax).p0
        [(bezierSliceFromTo A aMin aMax).p1, (bezierSliceFromTo A aMin aMax).p2,
         (bezierSliceFromTo A aMin aMax).p3])
      (aabbOfPoints (bezierSliceFromTo B bMin bMax).p0
        [(bezierSliceFromTo B bMin bMax).p1, (bezierSliceFromTo B bMin bMax).p2,
         (bezierSliceFromTo B bMin bMax).p3]) tollerance) :
    bezierIntersectionBroadPhase 0 A B aMin aMax bMin bMax tollerance =
      [⟨aMin, aMax, bMin, bMax⟩] := by
  conv_lhs => rw [bezierIntersectionBroadPhase]
  rw [if_pos htest]

/-- C1 (confirmed): for every pair of cubic Bezier curves and every
parameter rectangle containing a point `(s, t)` with
`bezierPointAt A s = bezierPointAt B t`, the broad-phase call on that
rectangle (any depth, any tolerance ≥ 0) passes its AABB overlap test —
it is not pruned — and its result list holds a candidate rectangle that
still contains `(s, t)`: an exact intersection is never lost to AABB
pruning. -/
theorem broadPhase_never_prunes_intersection (A B : CubicBezier) (s t : ℝ)
    (hint : bezierPointAt A s = bezierPointAt B t) :
    ∀ (depth : ℕ) (aMin aMax bMin bMax tollerance : ℝ),
      aMin ≤ s → s ≤ aMax → bMin ≤ t → t ≤ bMax → 0 ≤ tollerance →
      aabbIntersectionTest
        (aabbOfPoints (bezierSliceFromTo A aMin aMax).p0
          [(bezierSliceFromTo A aMin aMax).p1, (bezierSliceFromTo A aMin aMax).p2,
           (bezierSliceFromTo A aMin aMax).p3])
        (aabbOfPoints (bezierSliceFromTo B bMin bMax).p0
          [(bezierSliceFromTo B bMin bMax).p1, (bezierSliceFromTo B bMin bMax).p2,
           (bezierSliceFromTo B bMin bMax).p3]) tollerance ∧
      ∃ c ∈ bezierIntersectionBroadPhase depth A B aMin aMax bMin bMax tollerance,
        c.aMin ≤ s ∧ s ≤ c.aMax ∧ c.bMin ≤ t ∧ t ≤ c.bMax := by
  intro depth
  induction depth with
  | zero =>
    intro aMin aMax bMin bMax tollerance has hsa hbt htb htol
    have htest := slice_test_passes A B s t aMin aMax bMin bMax tollerance hint
      has hsa hbt htb htol
    refine ⟨htest, ⟨aMin, aMax, bMin, bMax⟩, ?_, has, hsa, hbt, htb⟩
    rw [broadPhase_zero_eq A B aMin aMax bMin bMax tollerance htest]
    simp
  | succ d ih =>
    intro aMin aMax bMin bMax tollerance has hsa hbt htb htol
    have htest := slice_test_passes A B s t aMin aMax bMin bMax tollerance hint
      has hsa hbt htb htol
    refine ⟨htest, ?_⟩
    rw [broadPhase_succ_eq d A B aMin aMax bMin bMax tollerance htest]
    rcases le_total s ((aMin + aMax) * 0.5) with hsm | hms <;>
      rcases le_total t ((bMin + bMax) * 0.5) with htm | hmt
    · obtain ⟨-, c, hc, hb⟩ := ih aMin ((aMin + aMax) * 0.5) bMin ((bMin + bMax) * 0.5)
        0.001 has hsm hbt htm (by norm_num)
      exact ⟨c, by simp only [List.mem_append]; tauto, hb⟩
    · obtain ⟨-, c, hc, hb⟩ := ih aMin ((aMin + aMax) * 0.5) ((bMin + bMax) * 0.5) bMax
        0.001 has hsm hmt htb (by norm_num)
      exact ⟨c, by simp only [List.mem_append]; tauto, hb⟩
    · obtain ⟨-, c, hc, hb⟩ := ih ((aMin + aMax) * 0.5) aMax bMin ((bMin + bMax) * 0.5)
        0.001 hms hsa hbt htm (by norm_num)
      exact ⟨c, by simp only [List.mem_append]; tauto, hb⟩
    · obtain ⟨-, c, hc, hb⟩ := ih ((aMin + aMax) * 0.5) aMax ((bMin + bMax) * 0.5) bMax
        0.001 hms hsa hmt htb (by norm_num)
      exact ⟨c, by simp only [List.mem_append]; tauto, hb⟩

/-! ### Concrete curves for witnesses and counterexamples -/

/-- A degenerate cubic whose four control points all sit at the origin. -/
def zeroCurve : CubicBezier := ⟨⟨0, 0, 0⟩, ⟨0, 0, 0⟩, ⟨0, 0, 0⟩, ⟨0, 0, 0⟩⟩

/-- A degenerate cubic whose four control points all sit at `(10,0,0)`. -/
def farCurve : CubicBezier := ⟨⟨10, 0, 0⟩, ⟨10, 0, 0⟩, ⟨10, 0, 0⟩, ⟨10, 0, 0⟩⟩

theorem zeroCurve_pointAt (t : ℝ) : bezierPointAt zeroCurve t = ⟨0, 0, 0⟩ := by
  unfold bezierPointAt zeroCurve; ext <;> simp

theorem farCurve_pointAt (t : ℝ) : bezierPointAt farCurve t = ⟨10, 0, 0⟩ := by
  unfold bezierPointAt farCurve
  ext
  · simp; ring
  · simp
  · simp

theorem zeroCurve_slice (u v : ℝ) : bezierSliceFromTo zeroCurve u v = zeroCurve := by
  unfold bezierSliceFromTo bezierTangentAt
  rw [zeroCurve_pointAt, zeroCurve_pointAt]
  unfold zeroCurve
  ext <;> simp

theorem farCurve_slice (u v : ℝ) : bezierSliceFromTo farCurve u v = farCurve := by
  unfold bezierSliceFromTo bezierTangentAt
  rw [farCurve_pointAt, farCurve_pointAt]
  unfold farCurve
  ext <;> simp

/-! ### Claim C2: the recursion drops the caller's tolerance -/

theorem zero_far_test_100 :
    aabbIntersectionTest
      (aabbOfPoints zeroCurve.p0 [zeroCurve.p1, zeroCurve.p2, zeroCurve.p3])
      (aabbOfPoints farCurve.p0 [farCurve.p1, farCurve.p2, farCurve.p3]) 100 := by
  unfold aabbIntersectionTest aabbOfPoints zeroCurve farCurve
  norm_num [vmin, vmax]

theorem zero_far_test_default_fails :
    ¬ aabbIntersectionTest
      (aabbOfPoints zeroCurve.p0 [zeroCurve.p1, zeroCurve.p2, zeroCurve.p3])
      (aabbOfPoints farCurve.p0 [farCurve.p1, farCurve.p2, farCurve.p3]) 0.001 := by
  unfold aabbIntersectionTest aabbOfPoints zeroCurve farCurve
  norm_num [vmin, vmax]

/-- C2 counterexample: with `tollerance = 100` on two distant point-curves,
the source's broad phase prunes every quadrant (the recursive calls run at
the default 0.001), while the spec's version — which propagates the
caller's tolerance — records all four depth-1 quadrants.  The candidate
sets differ, refuting the claim at this input. -/
theorem broadPhase_tolerance_drop_counterexample :
    bezierIntersectionBroadPhase 1 zeroCurve farCurve 0 1 0 1 100 = [] ∧
    broadPhaseSpecPropagated 1 zeroCurve farCurve 0 1 0 1 100 ≠ [] := by
  have hz := zeroCurve_slice
  have hf := farCurve_slice
  have htop : aabbIntersectionTest
      (aabbOfPoints (bezierSliceFromTo zeroCurve 0 1).p0
        [(bezierSliceFromTo zeroCurve 0 1).p1, (bezierSliceFromTo zeroCurve 0 1).p2,
         (bezierSliceFromTo zeroCurve 0 1).p3])
      (aabbOfPoints (bezierSliceFromTo farCurve 0 1).p0
        [(bezierSliceFromTo farCurve 0 1).p1, (bezierSliceFromTo farCurve 0 1).p2,
         (bezierSliceFromTo farCurve 0 1).p3]) 100 := by
    rw [hz, hf]; exact zero_far_test_100
  have hquad : ∀ a0 a1 b0 b1 : ℝ,
      bezierIntersectionBroadPhase 0 zeroCurve farCurve a0 a1 b0 b1 0.001 = [] := by
    intro a0 a1 b0 b1
    conv_lhs => rw [bezierIntersectionBroadPhase]
    rw [hz, hf, if_neg zero_far_test_default_fails]
  have hquadS : ∀ a0 a1 b0 b1 : ℝ,
      broadPhaseSpecPropagated 0 zeroCurve farCurve a0 a1 b0 b1 100 =
        [⟨a0, a1, b0, b1⟩] := by
    intro a0 a1 b0 b1
    conv_lhs => rw [broadPhaseSpecPropagated]
    rw [hz, hf, if_pos zero_far_test_100]
  constructor
  · rw [broadPhase_succ_eq 0 zeroCurve farCurve 0 1 0 1 100 htop]
    rw [hquad, hquad, hquad, hquad]
    simp
  · conv_lhs => rw [broadPhaseSpecPropagated]
    rw [hz, hf, if_pos zero_far_test_100]
    dsimp only
    rw [hquadS, hquadS, hquadS, hquadS]
    simp

/-- C2 (corrected): the caller's tolerance is consulted only by the
top-level overlap test; every recursive quadrant call runs at the default
0.001.  Hence (i) two tolerance values whose top-level tests agree give
identical candidate sets at every depth, and (ii) at the default
tolerance 0.001 the source's broad phase does coincide with the
tolerance-propagating version the spec describes. -/
theorem broadPhase_tolerance_top_level_only :
    (∀ (depth : ℕ) (A B : CubicBezier) (aMin aMax bMin bMax t1 t2 : ℝ),
      (aabbIntersectionTest
        (aabbOfPoints (bezierSliceFromTo A aMin aMax).p0
          [(bezierSliceFromTo A aMin aMax).p1, (bezierSliceFromTo A aMin aMax).p2,
           (bezierSliceFromTo A aMin aMax).p3])
        (aabbOfPoints (bezierSliceFromTo B bMin bMax).p0
          [(bezierSliceFromTo B bMin bMax).p1, (bezierSliceFromTo B bMin bMax).p2,
           (bezierSliceFromTo B bMin bMax).p3]) t1 ↔
       aabbIntersectionTest
        (aabbOfPoints (bezierSliceFromTo A aMin aMax).p0
          [(bezierSliceFromTo A aMin aMax).p1, (bezierSliceFromTo A aMin aMax).p2,
           (bezierSliceFromTo A aMin aMax).p3])
        (aabbOfPoints (bezierSliceFromTo B bMin bMax).p0
          [(bezierSliceFromTo B bMin bMax).p1, (bezierSliceFromTo B bMin bMax).p2,
           (bezierSliceFromTo B bMin bMax).p3]) t2) →
      bezierIntersectionBroadPhase depth A B aMin aMax bMin bMax t1 =
        bezierIntersectionBroadPhase depth A B aMin aMax bMin bMax t2) ∧
    (∀ (depth : ℕ) (A B : CubicBezier) (aMin aMax bMin bMax : ℝ),
      bezierIntersectionBroadPhase depth A B aMin aMax bMin bMax 0.001 =
        broadPhaseSpecPropagated depth A B aMin aMax bMin bMax 0.001) := by
  constructor
  · intro depth A B aMin aMax bMin bMax t1 t2 hiff
    conv_lhs => rw [bezierIntersectionBroadPhase.eq_def]
    conv_rhs => rw [bezierIntersectionBroadPhase.eq_def]
    by_cases h : aabbIntersectionTest
        (aabbOfPoints (bezierSliceFromTo A aMin aMax).p0
          [(bezierSliceFromTo A aMin aMax).p1, (bezierSliceFromTo A aMin aMax).p2,
           (bezierSliceFromTo A aMin aMax).p3])
        (aabbOfPoints (bezierSliceFromTo B bMin bMax).p0
          [(bezierSliceFromTo B bMin bMax).p1, (bezierSliceFromTo B bMin bMax).p2,
           (bezierSliceFromTo B bMin bMax).p3]) t1
    · rw [if_pos h, if_pos (hiff.mp h)]
    · rw [if_neg h, if_neg (fun hh => h (hiff.mpr hh))]
  · intro depth
    induction depth with
    | zero =>
      intro A B aMin aMax bMin bMax
      conv_lhs => rw [bezierIntersectionBroadPhase]
      conv_rhs => rw [broadPhaseSpecPropagated]
    | succ d ih =>
      intro A B aMin aMax bMin bMax
      conv_lhs => rw [bezierIntersectionBroadPhase]
      conv_rhs => rw [broadPhaseSpecPropagated]
      by_cases h : aabbIntersectionTest
          (aabbOfPoints (bezierSliceFromTo A aMin aMax).p0
            [(bezierSliceFromTo A aMin aMax).p1, (bezierSliceFromTo A aMin aMax).p2,
             (bezierSliceFromTo A aMin aMax).p3])
          (aabbOfPoints (bezierSliceFromTo B bMin bMax).p0
            [(bezierSliceFromTo B bMin bMax).p1, (bezierSliceFromTo B bMin bMax).p2,
             (bezierSliceFromTo B bMin bMax).p3]) 0.001
      · rw [if_pos h, if_pos h]
        dsimp only
        rw [ih, ih, ih, ih]
      · rw [if_neg h, if_neg h]

/-- C1 witness: two coincident point-curves meet at `(1/2, 1/2)`; the
depth-0 broad phase on the unit square with tolerance 0 is not pruned and
records a candidate containing `(1/2, 1/2)`. -/
theorem broadPhase_never_prunes_witness :
    aabbIntersectionTest
      (aabbOfPoints (bezierSliceFromTo zeroCurve 0 1).p0
        [(bezierSliceFromTo zeroCurve 0 1).p1, (bezierSliceFromTo zeroCurve 0 1).p2,
         (bezierSliceFromTo zeroCurve 0 1).p3])
      (aabbOfPoints (bezierSliceFromTo zeroCurve 0 1).p0
        [(bezierSliceFromTo zeroCurve 0 1).p1, (bezierSliceFromTo zeroCurve 0 1).p2,
         (bezierSliceFromTo zeroCurve 0 1).p3]) 0 ∧
    ∃ c ∈ bezierIntersectionBroadPhase 0 zeroCurve zeroCurve 0 1 0 1 0,
      c.aMin ≤ 1 / 2 ∧ 1 / 2 ≤ c.aMax ∧ c.bMin ≤ 1 / 2 ∧ 1 / 2 ≤ c.bMax :=
  broadPhase_never_prunes_intersection zeroCurve zeroCurve (1 / 2) (1 / 2) rfl
    0 0 1 0 1 0 (by norm_num) (by norm_num) (by norm_num) (by norm_num) (le_refl 0)

/-! ### Narrow-phase iteration lemmas (C5, C10) -/

/-- Every branch of the narrow-phase body halves both interval widths. -/
theorem narrowStep_widths (A B : CubicBezier) (st : Cand) :
    (narrowStep A B st).1.aMax - (narrowStep A B st).1.aMin = (st.aMax - st.aMin) / 2 ∧
    (narrowStep A B st).1.bMax - (narrowStep A B st).1.bMin = (st.bMax - st.bMin) / 2 := by
  unfold narrowStep
  dsimp only
  split_ifs <;> constructor <;> dsimp only <;> ring

/-- Every branch of the narrow-phase body keeps the rectangle nested in
the previous one (and non-degenerate if it was). -/
theorem narrowStep_bounds (A B : CubicBezier) (st : Cand)
    (ha : st.aMin ≤ st.aMax) (hb : st.bMin ≤ st.bMax) :
    st.aMin ≤ (narrowStep A B st).1.aMin ∧ (narrowStep A B st).1.aMax ≤ st.aMax ∧
    (narrowStep A B st).1.aMin ≤ (narrowStep A B st).1.aMax ∧
    st.bMin ≤ (narrowStep A B st).1.bMin ∧ (narrowStep A B st).1.bMax ≤ st.bMax ∧
    (narrowStep A B st).1.bMin ≤ (narrowStep A B st).1.bMax := by
  unfold narrowStep
  dsimp only
  split_ifs <;> refine ⟨?_, ?_, ?_, ?_, ?_, ?_⟩ <;> dsimp only <;> linarith

/-- A successful narrow-phase run returns parameters inside the starting
rectangle. -/
theorem narrowGo_some_bounds (A B : CubicBezier) (tollerance : ℝ) :
    ∀ (fuel : ℕ) (st : Cand) (last : Option ℝ) (r : Sol),
      narrowGo A B tollerance fuel st last = some r →
      st.aMin ≤ st.aMax → st.bMin ≤ st.bMax →
      st.aMin ≤ r.pa ∧ r.pa ≤ st.aMax ∧ st.bMin ≤ r.pb ∧ r.pb ≤ st.bMax := by
  intro fuel
  induction fuel with
  | zero =>
    intro st last r h ha hb
    rw [narrowGo.eq_def] at h
    dsimp only at h
    by_cases hc : st.aMax - st.aMin > tollerance ∨ st.bMax - st.bMin > tollerance
    · rw [if_pos hc] at h
      exact Option.noConfusion h
    · rw [if_neg hc] at h
      cases last with
      | none => exact Option.noConfusion h
      | some d =>
        cases h
        exact ⟨le_refl _, ha, le_refl _, hb⟩
  | succ f ih =>
    intro st last r h ha hb
    rw [narrowGo.eq_def] at h
    dsimp only at h
    by_cases hc : st.aMax - st.aMin > tollerance ∨ st.bMax - st.bMin > tollerance
    · rw [if_pos hc] at h
      have hbd := narrowStep_bounds A B st ha hb
      have := ih (narrowStep A B st).1 (some (narrowStep A B st).2) r h
        hbd.2.2.1 hbd.2.2.2.2.2
      exact ⟨hbd.1.trans this.1, this.2.1.trans hbd.2.1,
        hbd.2.2.2.1.trans this.2.2.1, this.2.2.2.trans hbd.2.2.2.2.1⟩
    · rw [if_neg hc] at h
      cases last with
      | none => exact Option.noConfusion h
      | some d =>
        cases h
        exact ⟨le_refl _, ha, le_refl _, hb⟩

/-- With the loop already primed by one iteration (`last = some d0`), the
narrow phase at tolerance `1e-6` yields a value whenever the maximum
width is at most `1e-6 * 2 ^ fuel`. -/
theorem narrowGo_isSome_of_bound (A B : CubicBezier) :
    ∀ (n : ℕ) (st : Cand) (d0 : ℝ),
      max (st.aMax - st.aMin) (st.bMax - st.bMin) ≤ 0.000001 * 2 ^ n →
      (narrowGo A B 0.000001 n st (some d0)).isSome := by
  intro n
  induction n with
  | zero =>
    intro st d0 hbound
    rw [narrowGo.eq_def]
    dsimp only
    by_cases hc : st.aMax - st.aMin > 0.000001 ∨ st.bMax - st.bMin > 0.000001
    · exfalso
      have h1 := (le_max_left (st.aMax - st.aMin) (st.bMax - st.bMin)).trans hbound
      have h2 := (le_max_right (st.aMax - st.aMin) (st.bMax - st.bMin)).trans hbound
      have e : (0.000001 : ℝ) * 2 ^ (0 : ℕ) = 0.000001 := by norm_num
      rw [e] at h1 h2
      rcases hc with h | h <;> linarith
    · rw [if_neg hc]
      simp
  | succ m ih =>
    intro st d0 hbound
    rw [narrowGo.eq_def]
    dsimp only
    by_cases hc : st.aMax - st.aMin > 0.000001 ∨ st.bMax - st.bMin > 0.000001
    · rw [if_pos hc]
      apply ih
      have hw := narrowStep_widths A B st
      rw [hw.1, hw.2]
      have h1 := le_max_left (st.aMax - st.aMin) (st.bMax - st.bMin)
      have h2 := le_max_right (st.aMax - st.aMin) (st.bMax - st.bMin)
      have h3 : (0.000001 : ℝ) * 2 ^ (m + 1) = 2 * (0.000001 * 2 ^ m) := by ring
      rw [h3] at hbound
      apply max_le <;> linarith
    · rw [if_neg hc]
      simp

/-- C5 (confirmed): (i) each narrow-phase iteration exactly halves both
interval widths, so the maximum of the two widths is (at least) halved
every iteration; (ii) consequently, started on any rectangle whose
maximum width `w` exceeds the `1e-6` threshold, the loop produces a value
within any number of iterations `n` with `w ≤ 1e-6 * 2^n` — that is,
within `⌈log2(w / 1e-6)⌉` iterations — so the refinement is total on
every such rectangle. -/
theorem narrowPhase_terminates :
    (∀ (A B : CubicBezier) (st : Cand),
      max ((narrowStep A B st).1.aMax - (narrowStep A B st).1.aMin)
          ((narrowStep A B st).1.bMax - (narrowStep A B st).1.bMin) =
        max (st.aMax - st.aMin) (st.bMax - st.bMin) / 2) ∧
    (∀ (A B : CubicBezier) (n : ℕ) (st : Cand),
      max (st.aMax - st.aMin) (st.bMax - st.bMin) ≤ 0.000001 * 2 ^ n →
      0.000001 < max (st.aMax - st.aMin) (st.bMax - st.bMin) →
      (narrowGo A B 0.000001 n st none).isSome) := by
  constructor
  · intro A B st
    have hw := narrowStep_widths A B st
    rw [hw.1, hw.2]
    rcases le_total (st.aMax - st.aMin) (st.bMax - st.bMin) with h | h
    · rw [max_eq_right h,
        max_eq_right (by linarith : (st.aMax - st.aMin) / 2 ≤ (st.bMax - st.bMin) / 2)]
    · rw [max_eq_left h,
        max_eq_left (by linarith : (st.bMax - st.bMin) / 2 ≤ (st.aMax - st.aMin) / 2)]
  · intro A B n st hbound hgt
    have hc : st.aMax - st.aMin > 0.000001 ∨ st.bMax - st.bMin > 0.000001 := by
      rcases max_cases (st.aMax - st.aMin) (st.bMax - st.bMin) with ⟨he, -⟩ | ⟨he, -⟩
      · left; rw [he] at hgt; exact hgt
      · right; rw [he] at hgt; exact hgt
    match n with
    | 0 =>
      exfalso
      have e : (0.000001 : ℝ) * 2 ^ (0 : ℕ) = 0.000001 := by norm_num
      rw [e] at hbound
      linarith
    | m + 1 =>
      rw [narrowGo.eq_def]
      dsimp only
      rw [if_pos hc]
      apply narrowGo_isSome_of_bound
      have hw := narrowStep_widths A B st
      rw [hw.1, hw.2]
      have h1 := le_max_left (st.aMax - st.aMin) (st.bMax - st.bMin)
      have h2 := le_max_right (st.aMax - st.aMin) (st.bMax - st.bMin)
      have h3 : (0.000001 : ℝ) * 2 ^ (m + 1) = 2 * (0.000001 * 2 ^ m) := by ring
      rw [h3] at hbound
      apply max_le <;> linarith

/-- C5 witness: on the unit candidate square (maximum width 1) for two
point-curves, 20 iterations suffice (`1 ≤ 1e-6 * 2^20`) and the narrow
phase yields a value. -/
theorem narrowPhase_terminates_witness :
    (narrowGo zeroCurve zeroCurve 0.000001 20 ⟨0, 1, 0, 1⟩ none).isSome :=
  narrowPhase_terminates.2 zeroCurve zeroCurve 20 ⟨0, 1, 0, 1⟩
    (by norm_num) (by norm_num)

/-- Every candidate the broad phase emits at depth `d` on a given
rectangle has widths exactly the initial widths divided by `2^d`, and
stays nested inside the initial rectangle. -/
theorem broadPhase_cand_props :
    ∀ (depth : ℕ) (A B : CubicBezier) (a0 a1 b0 b1 tollerance : ℝ) (c : Cand),
      c ∈ bezierIntersectionBroadPhase depth A B a0 a1 b0 b1 tollerance →
      (c.aMax - c.aMin = (a1 - a0) / 2 ^ depth ∧
       c.bMax - c.bMin = (b1 - b0) / 2 ^ depth) ∧
      ((a0 ≤ a1 → a0 ≤ c.aMin ∧ c.aMax ≤ a1) ∧
       (b0 ≤ b1 → b0 ≤ c.bMin ∧ c.bMax ≤ b1)) := by
  intro depth
  induction depth with
  | zero =>
    intro A B a0 a1 b0 b1 tollerance c hc
    rw [bezierIntersectionBroadPhase.eq_def] at hc
    dsimp only at hc
    by_cases htest : aabbIntersectionTest
        (aabbOfPoints (bezierSliceFromTo A a0 a1).p0
          [(bezierSliceFromTo A a0 a1).p1, (bezierSliceFromTo A a0 a1).p2,
           (bezierSliceFromTo A a0 a1).p3])
        (aabbOfPoints (bezierSliceFromTo B b0 b1).p0
          [(bezierSliceFromTo B b0 b1).p1, (bezierSliceFromTo B b0 b1).p2,
           (bezierSliceFromTo B b0 b1).p3]) tollerance
    · rw [if_pos htest] at hc
      rw [List.mem_singleton] at hc
      subst hc
      refine ⟨⟨?_, ?_⟩, ⟨fun h => ⟨le_refl _, le_refl _⟩, fun h => ⟨le_refl _, le_refl _⟩⟩⟩ <;>
        norm_num
    · rw [if_neg htest] at hc
      simp at hc
  | succ d ih =>
    intro A B a0 a1 b0 b1 tollerance c hc
    rw [bezierIntersectionBroadPhase.eq_def] at hc
    dsimp only at hc
    by_cases htest : aabbIntersectionTest
        (aabbOfPoints (bezierSliceFromTo A a0 a1).p0
          [(bezierSliceFromTo A a0 a1).p1, (bezierSliceFromTo A a0 a1).p2,
           (bezierSliceFromTo A a0 a1).p3])
        (aabbOfPoints (bezierSliceFromTo B b0 b1).p0
          [(bezierSliceFromTo B b0 b1).p1, (bezierSliceFromTo B b0 b1).p2,
           (bezierSliceFromTo B b0 b1).p3]) tollerance
    · rw [if_pos htest] at hc
      simp only [List.mem_append] at hc
      have key : ∀ (x0 x1 y0 y1 : ℝ),
          c ∈ bezierIntersectionBroadPhase d A B x0 x1 y0 y1 0.001 →
          (x1 - x0 = (a1 - a0) / 2 → y1 - y0 = (b1 - b0) / 2 →
           c.aMax - c.aMin = (a1 - a0) / 2 ^ (d + 1) ∧
           c.bMax - c.bMin = (b1 - b0) / 2 ^ (d + 1)) := by
        intro x0 x1 y0 y1 hmem hxw hyw
        have hw := (ih A B x0 x1 y0 y1 0.001 c hmem).1
        constructor
        · rw [hw.1, hxw, pow_succ]; ring
        · rw [hw.2, hyw, pow_succ]; ring
      rcases hc with ((h | h) | h) | h
      · have hb := (ih A B a0 ((a0 + a1) * 0.5) b0 ((b0 + b1) * 0.5) 0.001 c h).2
        refine ⟨key _ _ _ _ h (by ring) (by ring), ⟨fun ha => ?_, fun hbb => ?_⟩⟩
        · have := hb.1 (by linarith)
          exact ⟨this.1, by linarith [this.2]⟩
        · have := hb.2 (by linarith)
          exact ⟨this.1, by linarith [this.2]⟩
      · have hb := (ih A B a0 ((a0 + a1) * 0.5) ((b0 + b1) * 0.5) b1 0.001 c h).2
        refine ⟨key _ _ _ _ h (by ring) (by ring), ⟨fun ha => ?_, fun hbb => ?_⟩⟩
        · have := hb.1 (by linarith)
          exact ⟨this.1, by linarith [this.2]⟩
        · have := hb.2 (by linarith)
          exact ⟨by linarith [this.1], this.2⟩
      · have hb := (ih A B ((a0 + a1) * 0.5) a1 b0 ((b0 + b1) * 0.5) 0.001 c h).2
        refine ⟨key _ _ _ _ h (by ring) (by ring), ⟨fun ha => ?_, fun hbb => ?_⟩⟩
        · have := hb.1 (by linarith)
          exact ⟨by linarith [this.1], this.2⟩
        · have := hb.2 (by linarith)
          exact ⟨this.1, by linarith [this.2]⟩
      · have hb := (ih A B ((a0 + a1) * 0.5) a1 ((b0 + b1) * 0.5) b1 0.001 c h).2
        refine ⟨key _ _ _ _ h (by ring) (by ring), ⟨fun ha => ?_, fun hbb => ?_⟩⟩
        · have := hb.1 (by linarith)
          exact ⟨by linarith [this.1], this.2⟩
        · have := hb.2 (by linarith)
          exact ⟨by linarith [this.1], this.2⟩
    · rw [if_neg htest] at hc
      simp at hc

/-- C10 (confirmed): on a candidate whose widths are both already at most
`1e-6`, the narrow-phase loop body never runs, so the Python `minDist` is
never bound and the function produces no value (`none`), whatever the
fuel; this failure is unreachable from the orchestrator because every
candidate of the depth-8 broad phase on the unit square has both widths
exactly `2^-8 = 1/256`, which exceeds `1e-6`. -/
theorem narrowPhase_unbound_minDist_unreachable :
    ∀ (A B : CubicBezier) (st : Cand) (fuel : ℕ),
      st.aMax - st.aMin ≤ 0.000001 → st.bMax - st.bMin ≤ 0.000001 →
      narrowGo A B 0.000001 fuel st none = none ∧
      bezierIntersectionNarrowPhase st A B 0.000001 = none ∧
      ∀ (tollerance : ℝ) (c : Cand),
        c ∈ bezierIntersectionBroadPhase 8 A B 0 1 0 1 tollerance →
        c.aMax - c.aMin = 1 / 2 ^ 8 ∧ c.bMax - c.bMin = 1 / 2 ^ 8 ∧
        (0.000001 : ℝ) < c.aMax - c.aMin := by
  intro A B st fuel ha hb
  have hcond : ¬ (st.aMax - st.aMin > 0.000001 ∨ st.bMax - st.bMin > 0.000001) := by
    push_neg
    exact ⟨ha, hb⟩
  have hnone : ∀ (f : ℕ), narrowGo A B 0.000001 f st none = none := by
    intro f
    rw [narrowGo.eq_def]
    dsimp only
    rw [if_neg hcond]
  refine ⟨hnone fuel, hnone narrowFuel, ?_⟩
  intro tollerance c hc
  have hw := (broadPhase_cand_props 8 A B 0 1 0 1 tollerance c hc).1
  have h1 : c.aMax - c.aMin = 1 / 2 ^ 8 := by rw [hw.1]; norm_num
  refine ⟨h1, by rw [hw.2]; norm_num, by rw [h1]; norm_num⟩

/-- C10 witness: the fully degenerate candidate `[0,0]×[0,0]` makes the
narrow phase produce no value, and the depth-8 candidate-width facts hold
for the point-curves. -/
theorem narrowPhase_unbound_minDist_witness :
    narrowGo zeroCurve zeroCurve 0.000001 0 ⟨0, 0, 0, 0⟩ none = none ∧
    bezierIntersectionNarrowPhase ⟨0, 0, 0, 0⟩ zeroCurve zeroCurve 0.000001 = none ∧
    ∀ (tollerance : ℝ) (c : Cand),
      c ∈ bezierIntersectionBroadPhase 8 zeroCurve zeroCurve 0 1 0 1 tollerance →
      c.aMax - c.aMin = 1 / 2 ^ 8 ∧ c.bMax - c.bMin = 1 / 2 ^ 8 ∧
      (0.000001 : ℝ) < c.aMax - c.aMin :=
  narrowPhase_unbound_minDist_unreachable zeroCurve zeroCurve ⟨0, 0, 0, 0⟩ 0
    (by norm_num) (by norm_num)

/-! ### Claim C4: bezierLength versus the composite trapezoidal rule -/

/-- A straight segment from the origin to `(3,0,0)` with evenly spaced
control points: its tangent `bezierTangentAt` is constantly `(1,0,0)` and
its true arc length is 3. -/
def lineCurve : CubicBezier := ⟨⟨0, 0, 0⟩, ⟨1, 0, 0⟩, ⟨2, 0, 0⟩, ⟨3, 0, 0⟩⟩

theorem lineCurve_tangent (t : ℝ) : bezierTangentAt lineCurve t = ⟨1, 0, 0⟩ := by
  unfold bezierTangentAt lineCurve
  ext
  · simp; ring
  · simp
  · simp

theorem lineCurve_tangent_length (t : ℝ) :
    Vec3.length (bezierTangentAt lineCurve t) = 1 := by
  rw [lineCurve_tangent]
  unfold Vec3.length Vec3.dot
  norm_num

/-- C4 (code bug): on the line curve with `tMin = 0`, `tMax = 1`,
`samples = 1`, the code returns 6 while the composite trapezoidal rule of
the spec (speed `|tangentAt| = 1`, one subinterval, endpoints weighted one
half, times the subinterval width) gives 1 — and even rescaled by the
factor 3 relating `tangentAt` to the true derivative it would give 3, the
segment's true length.  The loop runs `samples+1` times, pairing the seed
value (the quartic at `t = 1`) with the first sample in an extra spurious
trapezoid term, and the final scale `3/samples` lacks the factor
`(tMax - tMin)`. -/
theorem bezierLength_extra_term_bug :
    bezierLength lineCurve 0 1 1 = 6 ∧
    trapezoidArcLengthSpec lineCurve 0 1 1 = 1 ∧
    bezierLength lineCurve 0 1 1 ≠ trapezoidArcLengthSpec lineCurve 0 1 1 ∧
    bezierLength lineCurve 0 1 1 ≠ 3 * trapezoidArcLengthSpec lineCurve 0 1 1 := by
  have h1 : bezierLength lineCurve 0 1 1 = 6 := by
    unfold bezierLength lineCurve
    norm_num [Vec3.dot, List.range_succ]
  have h2 : trapezoidArcLengthSpec lineCurve 0 1 1 = 1 := by
    unfold trapezoidArcLengthSpec
    norm_num [List.range_succ, lineCurve_tangent_length]
  refine ⟨h1, h2, ?_, ?_⟩ <;> rw [h1, h2] <;> norm_num

/-! ### Claim C6: the dedup pass -/

/-- C6 (corrected, amended to a two-solution list): feeding two refined
solutions with finite distances and squared parameter distance below 0.01
into the dedup pass marks exactly one of them with the `⊤` sentinel: the
one with the larger distance (ties mark the first). -/
theorem dedup_pair (s1 s2 : Sol) (h1 : s1.dist ≠ ⊤) (h2 : s2.dist ≠ ⊤)
    (hclose : (s1.pa - s2.pa) * (s1.pa - s2.pa) +
      (s1.pb - s2.pb) * (s1.pb - s2.pb) < 0.01) :
    (s1.dist < s2.dist → dedup [s1, s2] = [s1, ⟨s2.pa, s2.pb, ⊤⟩]) ∧
    (¬ s1.dist < s2.dist → dedup [s1, s2] = [⟨s1.pa, s1.pb, ⊤⟩, s2]) := by
  have hr : List.range 2 = [0, 1] := rfl
  constructor
  · intro hlt
    simp [dedup, hr, dedupOuter, dedupInner, solAt, markInf, h1, h2, hclose, hlt]
  · intro hnlt
    simp [dedup, hr, dedupOuter, dedupInner, solAt, markInf, h1, h2, hclose, hnlt]

/-- First synthetic refined solution for the C6 counterexample. -/
def solA : Sol := ⟨0, 0, ((1 : ℝ) : WithTop ℝ)⟩

/-- Second synthetic refined solution (close to `solA`, larger distance). -/
def solB : Sol := ⟨1 / 100, 0, ((2 : ℝ) : WithTop ℝ)⟩

/-- Third synthetic refined solution (close to both, smallest distance). -/
def solC : Sol := ⟨2 / 100, 0, ((1 / 2 : ℝ) : WithTop ℝ)⟩

/-- C6 counterexample: in the list `[solA, solB, solC]` (all pairwise
within 0.1 in parameter space, all distances finite), the pass first
marks `solB` (beaten by `solA`), then marks `solA` (beaten by `solC`):
afterwards the close, initially unmarked pair `(solA, solB)` has BOTH
members marked `⊤`, not exactly one. -/
theorem dedup_pair_both_marked_counterexample :
    ((solA.pa - solB.pa) * (solA.pa - solB.pa) +
     (solA.pb - solB.pb) * (solA.pb - solB.pb) < 0.01) ∧
    solA.dist ≠ ⊤ ∧ solB.dist ≠ ⊤ ∧
    (solAt (dedup [solA, solB, solC]) 0).dist = ⊤ ∧
    (solAt (dedup [solA, solB, solC]) 1).dist = ⊤ := by
  have hr : List.range 3 = [0, 1, 2] := rfl
  refine ⟨by norm_num [solA, solB], by simp [solA], by simp [solB], ?_, ?_⟩ <;>
  · norm_num [dedup, hr, dedupOuter, dedupInner, solAt, markInf, solA, solB, solC]

/-! ### Claim C8: circumcircle correctness -/

/-- Lagrange identity: the squared norm of a cross product. -/
theorem cross_lagrange (u v : Vec3) :
    Vec3.dot (Vec3.cross u v) (Vec3.cross u v) =
      Vec3.dot u u * Vec3.dot v v - Vec3.dot u v * Vec3.dot u v := by
  unfold Vec3.cross Vec3.dot
  dsimp only
  ring

/-- `dirBA · dirAC` in terms of the edge vectors `u = a-b`, `v = b-c`. -/
theorem dot_BA_AC (a b c : Vec3) :
    Vec3.dot (a - b) (c - a) =
      -(Vec3.dot (a - b) (a - b) + Vec3.dot (a - b) (b - c)) := by
  unfold Vec3.dot
  simp only [Vec3.sub_x, Vec3.sub_y, Vec3.sub_z]
  ring

/-- `dirAC · dirCB` in terms of the edge vectors. -/
theorem dot_AC_CB (a b c : Vec3) :
    Vec3.dot (c - a) (b - c) =
      -(Vec3.dot (a - b) (b - c) + Vec3.dot (b - c) (b - c)) := by
  unfold Vec3.dot
  simp only [Vec3.sub_x, Vec3.sub_y, Vec3.sub_z]
  ring

/-- `dirAC · dirAC` in terms of the edge vectors. -/
theorem dot_AC_AC (a b c : Vec3) :
    Vec3.dot (c - a) (c - a) =
      Vec3.dot (a - b) (a - b) + 2 * Vec3.dot (a - b) (b - c) +
        Vec3.dot (b - c) (b - c) := by
  unfold Vec3.dot
  simp only [Vec3.sub_x, Vec3.sub_y, Vec3.sub_z]
  ring

/-- Squared norm of a linear combination of two vectors, given its
components. -/
theorem dot_lin (r s : ℝ) (u v w : Vec3)
    (hx : w.x = r * u.x + s * v.x) (hy : w.y = r * u.y + s * v.y)
    (hz : w.z = r * u.z + s * v.z) :
    Vec3.dot w w = r * r * Vec3.dot u u + 2 * (r * s) * Vec3.dot u v +
      s * s * Vec3.dot v v := by
  unfold Vec3.dot
  rw [hx, hy, hz]
  ring

/-- The scalar heart of the circumcircle formula: with `uu, uv, vv` the
dot products of the edge vectors and `N2 = uu*vv - uv^2` the squared
cross-product norm, the barycentric weights sum to 1 and the three
squared center-to-vertex distances all equal
`uu*vv*(uu+2uv+vv) / (4*N2)`, the squared radius. -/
theorem circum_scalar (uu uv vv N2 alpha beta gamma : ℝ) (hN2 : N2 ≠ 0)
    (hlag : N2 = uu * vv - uv * uv)
    (ha : alpha = (-(uu + uv)) * (vv * (-1 / (2 * N2))))
    (hb : beta = uv * ((uu + 2 * uv + vv) * (-1 / (2 * N2))))
    (hg : gamma = (-(uv + vv)) * (uu * (-1 / (2 * N2)))) :
    alpha + beta + gamma = 1 ∧
    (beta + gamma) * (beta + gamma) * uu + 2 * ((beta + gamma) * gamma) * uv +
        gamma * gamma * vv = uu * vv * (uu + 2 * uv + vv) / (4 * N2) ∧
    alpha * alpha * uu - 2 * (alpha * gamma) * uv + gamma * gamma * vv =
        uu * vv * (uu + 2 * uv + vv) / (4 * N2) ∧
    alpha * alpha * uu + 2 * (alpha * (alpha + beta)) * uv +
        (alpha + beta) * (alpha + beta) * vv =
        uu * vv * (uu + 2 * uv + vv) / (4 * N2) := by
  subst ha hb hg hlag
  refine ⟨?_, ?_, ?_, ?_⟩ <;> field_simp <;> ring

/-- The circle built by `circleOfTriangle`'s non-degenerate branch is
equidistant from the three vertices, the common distance being its
radius, and the radius is non-negative. -/
theorem circum_construction (a b c : Vec3)
    (hln : Vec3.length (Vec3.cross (a - b) (b - c)) ≠ 0)
    (alpha beta gamma radius : ℝ)
    (ha : alpha = Vec3.dot (a - b) (c - a) * (Vec3.length (b - c) * Vec3.length (b - c) *
      (-1 / (2 * Vec3.length (Vec3.cross (a - b) (b - c)) *
        Vec3.length (Vec3.cross (a - b) (b - c))))))
    (hb : beta = Vec3.dot (a - b) (b - c) * (Vec3.length (c - a) * Vec3.length (c - a) *
      (-1 / (2 * Vec3.length (Vec3.cross (a - b) (b - c)) *
        Vec3.length (Vec3.cross (a - b) (b - c))))))
    (hg : gamma = Vec3.dot (c - a) (b - c) * (Vec3.length (a - b) * Vec3.length (a - b) *
      (-1 / (2 * Vec3.length (Vec3.cross (a - b) (b - c)) *
        Vec3.length (Vec3.cross (a - b) (b - c))))))
    (hr : radius = Vec3.length (a - b) * Vec3.length (b - c) * Vec3.length (c - a) /
      (2 * Vec3.length (Vec3.cross (a - b) (b - c)))) :
    Vec3.length (alpha • a + beta • b + gamma • c - a) = radius ∧
    Vec3.length (alpha • a + beta • b + gamma • c - b) = radius ∧
    Vec3.length (alpha • a + beta • b + gamma • c - c) = radius ∧
    0 ≤ radius := by
  have hN2 : Vec3.dot (Vec3.cross (a - b) (b - c)) (Vec3.cross (a - b) (b - c)) ≠ 0 :=
    fun h0 => hln ((Vec3.length_eq_zero_iff _).2 h0)
  have hlag := cross_lagrange (a - b) (b - c)
  have ha2 : alpha = (-(Vec3.dot (a - b) (a - b) + Vec3.dot (a - b) (b - c))) *
      (Vec3.dot (b - c) (b - c) *
        (-1 / (2 * Vec3.dot (Vec3.cross (a - b) (b - c)) (Vec3.cross (a - b) (b - c))))) := by
    rw [ha, dot_BA_AC, Vec3.length_mul_self, mul_assoc 2, Vec3.length_mul_self]
  have hb2 : beta = Vec3.dot (a - b) (b - c) *
      ((Vec3.dot (a - b) (a - b) + 2 * Vec3.dot (a - b) (b - c) +
          Vec3.dot (b - c) (b - c)) *
        (-1 / (2 * Vec3.dot (Vec3.cross (a - b) (b - c)) (Vec3.cross (a - b) (b - c))))) := by
    rw [hb, Vec3.length_mul_self, dot_AC_AC a b c, mul_assoc 2, Vec3.length_mul_self]
  have hg2 : gamma = (-(Vec3.dot (a - b) (b - c) + Vec3.dot (b - c) (b - c))) *
      (Vec3.dot (a - b) (a - b) *
        (-1 / (2 * Vec3.dot (Vec3.cross (a - b) (b - c)) (Vec3.cross (a - b) (b - c))))) := by
    rw [hg, dot_AC_CB, Vec3.length_mul_self, mul_assoc 2, Vec3.length_mul_self]
  have hkey := circum_scalar (Vec3.dot (a - b) (a - b)) (Vec3.dot (a - b) (b - c))
    (Vec3.dot (b - c) (b - c))
    (Vec3.dot (Vec3.cross (a - b) (b - c)) (Vec3.cross (a - b) (b - c)))
    alpha beta gamma hN2 hlag ha2 hb2 hg2
  have hS := hkey.1
  have hrad_nonneg : 0 ≤ radius := by
    rw [hr]
    apply div_nonneg
    · exact mul_nonneg (mul_nonneg (Vec3.length_nonneg _) (Vec3.length_nonneg _))
        (Vec3.length_nonneg _)
    · linarith [Vec3.length_nonneg (Vec3.cross (a - b) (b - c))]
  have hr2 : radius * radius =
      Vec3.dot (a - b) (a - b) * Vec3.dot (b - c) (b - c) *
        (Vec3.dot (a - b) (a - b) + 2 * Vec3.dot (a - b) (b - c) +
          Vec3.dot (b - c) (b - c)) /
      (4 * Vec3.dot (Vec3.cross (a - b) (b - c)) (Vec3.cross (a - b) (b - c))) := by
    rw [hr, div_mul_div_comm]
    congr 1
    · calc Vec3.length (a - b) * Vec3.length (b - c) * Vec3.length (c - a) *
          (Vec3.length (a - b) * Vec3.length (b - c) * Vec3.length (c - a)) =
            (Vec3.length (a - b) * Vec3.length (a - b)) *
            (Vec3.length (b - c) * Vec3.length (b - c)) *
            (Vec3.length (c - a) * Vec3.length (c - a)) := by ring
      _ = Vec3.dot (a - b) (a - b) * Vec3.dot (b - c) (b - c) *
            Vec3.dot (c - a) (c - a) := by
          rw [Vec3.length_mul_self, Vec3.length_mul_self, Vec3.length_mul_self]
      _ = Vec3.dot (a - b) (a - b) * Vec3.dot (b - c) (b - c) *
            (Vec3.dot (a - b) (a - b) + 2 * Vec3.dot (a - b) (b - c) +
              Vec3.dot (b - c) (b - c)) := by rw [dot_AC_AC a b c]
    · calc 2 * Vec3.length (Vec3.cross (a - b) (b - c)) *
          (2 * Vec3.length (Vec3.cross (a - b) (b - c))) =
            4 * (Vec3.length (Vec3.cross (a - b) (b - c)) *
              Vec3.length (Vec3.cross (a - b) (b - c))) := by ring
      _ = 4 * Vec3.dot (Vec3.cross (a - b) (b - c)) (Vec3.cross (a - b) (b - c)) := by
          rw [Vec3.length_mul_self]
  refine ⟨?_, ?_, ?_, hrad_nonneg⟩
  · have hx : (alpha • a + beta • b + gamma • c - a).x =
        (-(beta + gamma)) * (a - b).x + (-gamma) * (b - c).x := by
      simp only [Vec3.sub_x, Vec3.add_x, Vec3.smul_x]
      linear_combination a.x * hS
    have hy : (alpha • a + beta • b + gamma • c - a).y =
        (-(beta + gamma)) * (a - b).y + (-gamma) * (b - c).y := by
      simp only [Vec3.sub_y, Vec3.add_y, Vec3.smul_y]
      linear_combination a.y * hS
    have hz : (alpha • a + beta • b + gamma • c - a).z =
        (-(beta + gamma)) * (a - b).z + (-gamma) * (b - c).z := by
      simp only [Vec3.sub_z, Vec3.add_z, Vec3.smul_z]
      linear_combination a.z * hS
    have hd := dot_lin _ _ _ _ _ hx hy hz
    have hd2 : Vec3.dot (alpha • a + beta • b + gamma • c - a)
        (alpha • a + beta • b + gamma • c - a) = radius * radius := by
      rw [hd, hr2, ← hkey.2.1]
      ring
    unfold Vec3.length
    rw [hd2]
    exact Real.sqrt_mul_self hrad_nonneg
  · have hx : (alpha • a + beta • b + gamma • c - b).x =
        alpha * (a - b).x + (-gamma) * (b - c).x := by
      simp only [Vec3.sub_x, Vec3.add_x, Vec3.smul_x]
      linear_combination b.x * hS
    have hy : (alpha • a + beta • b + gamma • c - b).y =
        alpha * (a - b).y + (-gamma) * (b - c).y := by
      simp only [Vec3.sub_y, Vec3.add_y, Vec3.smul_y]
      linear_combination b.y * hS
    have hz : (alpha • a + beta • b + gamma • c - b).z =
        alpha * (a - b).z + (-gamma) * (b - c).z := by
      simp only [Vec3.sub_z, Vec3.add_z, Vec3.smul_z]
      linear_combination b.z * hS
    have hd := dot_lin _ _ _ _ _ hx hy hz
    have hd2 : Vec3.dot (alpha • a + beta • b + gamma • c - b)
        (alpha • a + beta • b + gamma • c - b) = radius * radius := by
      rw [hd, hr2, ← hkey.2.2.1]
      ring
    unfold Vec3.length
    rw [hd2]
    exact Real.sqrt_mul_self hrad_nonneg
  · have hx : (alpha • a + beta • b + gamma • c - c).x =
        alpha * (a - b).x + (alpha + beta) * (b - c).x := by
      simp only [Vec3.sub_x, Vec3.add_x, Vec3.smul_x]
      linear_combination c.x * hS
    have hy : (alpha • a + beta • b + gamma • c - c).y =
        alpha * (a - b).y + (alpha + beta) * (b - c).y := by
      simp only [Vec3.sub_y, Vec3.add_y, Vec3.smul_y]
      linear_combination c.y * hS
    have hz : (alpha • a + beta • b + gamma • c - c).z =
        alpha * (a - b).z + (alpha + beta) * (b - c).z := by
      simp only [Vec3.sub_z, Vec3.add_z, Vec3.smul_z]
      linear_combination c.z * hS
    have hd := dot_lin _ _ _ _ _ hx hy hz
    have hd2 : Vec3.dot (alpha • a + beta • b + gamma • c - c)
        (alpha • a + beta • b + gamma • c - c) = radius * radius := by
      rw [hd, hr2, ← hkey.2.2.2]
    unfold Vec3.length
    rw [hd2]
    exact Real.sqrt_mul_self hrad_nonneg

/-- C8 (confirmed): `circleOfTriangle` returns no value exactly when the
cross product of the edge direction vectors has zero length (collinear
points); otherwise it returns a circle whose center is equidistant from
the three points, that common distance equals the returned radius, and
the radius is non-negative. -/
theorem circleOfTriangle_correct (a b c : Vec3) :
    (circleOfTriangle a b c = none ↔
      Vec3.length (Vec3.cross (a - b) (b - c)) = 0) ∧
    (∀ circ : Circle3, circleOfTriangle a b c = some circ →
      Vec3.length (circ.center - a) = circ.radius ∧
      Vec3.length (circ.center - b) = circ.radius ∧
      Vec3.length (circ.center - c) = circ.radius ∧
      0 ≤ circ.radius) := by
  constructor
  · unfold circleOfTriangle
    dsimp only
    by_cases hln : Vec3.length (Vec3.cross (a - b) (b - c)) = 0
    · rw [if_pos hln]
      simp [hln]
    · rw [if_neg hln]
      simp [hln]
  · intro circ h
    unfold circleOfTriangle at h
    dsimp only at h
    by_cases hln : Vec3.length (Vec3.cross (a - b) (b - c)) = 0
    · rw [if_pos hln] at h
      exact Option.noConfusion h
    · rw [if_neg hln] at h
      have h2 := Option.some.inj h
      rw [← h2]
      exact circum_construction a b c hln _ _ _ _ rfl rfl rfl rfl

/-! ### Claim C7: orchestrator output invariant -/

theorem solAt_set_self : ∀ (l : List Sol) (i : ℕ) (s : Sol),
    i < l.length → solAt (l.set i s) i = s := by
  intro l
  induction l with
  | nil => intro i s h; simp at h
  | cons x t ih =>
    intro i s h
    cases i with
    | zero => rfl
    | succ n => exact ih n s (by simpa using h)

theorem solAt_set_ne : ∀ (l : List Sol) (i j : ℕ) (s : Sol),
    i ≠ j → solAt (l.set i s) j = solAt l j := by
  intro l
  induction l with
  | nil => intro i j s h; rfl
  | cons x t ih =>
    intro i j s hne
    cases i with
    | zero =>
      cases j with
      | zero => exact absurd rfl hne
      | succ m => rfl
    | succ n =>
      cases j with
      | zero => rfl
      | succ m => exact ih n m s (fun hh => hne (by rw [hh]))

theorem solAt_mem : ∀ (l : List Sol) (i : ℕ), i < l.length → solAt l i ∈ l := by
  intro l
  induction l with
  | nil => intro i h; simp at h
  | cons x t ih =>
    intro i h
    cases i with
    | zero => exact List.mem_cons_self _ _
    | succ n => exact List.mem_cons_of_mem _ (ih n (by simpa using h))

theorem mem_solAt : ∀ (l : List Sol) (s : Sol), s ∈ l →
    ∃ i, i < l.length ∧ solAt l i = s := by
  intro l
  induction l with
  | nil => intro s h; simp at h
  | cons x t ih =>
    intro s h
    rcases List.mem_cons.1 h with rfl | h
    · exact ⟨0, by simp, rfl⟩
    · obtain ⟨i, hi, he⟩ := ih s h
      exact ⟨i + 1, by simpa using hi, he⟩

/-- `l2` is the pointwise image of `l` under the dedup pass: the same
length, every entry keeping its parameters, its distance either kept or
overwritten with the `⊤` sentinel. -/
def SolsLike (l l2 : List Sol) : Prop :=
  l2.length = l.length ∧
  ∀ i, i < l.length →
    (solAt l2 i).pa = (solAt l i).pa ∧ (solAt l2 i).pb = (solAt l i).pb ∧
    ((solAt l2 i).dist = (solAt l i).dist ∨ (solAt l2 i).dist = ⊤)

theorem solsLike_refl (l : List Sol) : SolsLike l l :=
  ⟨rfl, fun _ _ => ⟨rfl, rfl, Or.inl rfl⟩⟩

theorem solsLike_trans {l1 l2 l3 : List Sol}
    (h12 : SolsLike l1 l2) (h23 : SolsLike l2 l3) : SolsLike l1 l3 := by
  refine ⟨h23.1.trans h12.1, fun i hi => ?_⟩
  have hi2 : i < l2.length := by rw [h12.1]; exact hi
  obtain ⟨p1, q1, d1⟩ := h12.2 i hi
  obtain ⟨p2, q2, d2⟩ := h23.2 i hi2
  refine ⟨p2.trans p1, q2.trans q1, ?_⟩
  rcases d2 with d2 | d2
  · rcases d1 with d1 | d1
    · exact Or.inl (d2.trans d1)
    · exact Or.inr (d2.trans d1)
  · exact Or.inr d2

theorem solsLike_markInf (l : List Sol) (i : ℕ) (hi : i < l.length) :
    SolsLike l (markInf l i) := by
  refine ⟨by simp [markInf], fun j hj => ?_⟩
  by_cases hij : i = j
  · subst hij
    rw [markInf, solAt_set_self l i _ hi]
    exact ⟨rfl, rfl, Or.inr rfl⟩
  · rw [markInf, solAt_set_ne l i j _ hij]
    exact ⟨rfl, rfl, Or.inl rfl⟩

theorem dedupInner_like : ∀ (js : List ℕ) (l : List Sol) (i : ℕ),
    i < l.length → (∀ j ∈ js, j < l.length) → SolsLike l (dedupInner l i js) := by
  intro js
  induction js with
  | nil => intro l i hi hjs; exact solsLike_refl l
  | cons j rest ih =>
    intro l i hi hjs
    have hjlen : j < l.length := hjs j (List.mem_cons_self _ _)
    have hrest : ∀ j' ∈ rest, j' < l.length :=
      fun j' hj' => hjs j' (List.mem_cons_of_mem _ hj')
    rw [dedupInner]
    dsimp only
    split_ifs with h1 h2 h3 h4
    · exact solsLike_refl l
    · exact ih l i hi hrest
    · have hm := solsLike_markInf l j hjlen
      have hlen : (markInf l j).length = l.length := by simp [markInf]
      exact solsLike_trans hm (ih (markInf l j) i (by rw [hlen]; exact hi)
        (fun j' hj' => by rw [hlen]; exact hrest j' hj'))
    · have hm := solsLike_markInf l i hi
      have hlen : (markInf l i).length = l.length := by simp [markInf]
      exact solsLike_trans hm (ih (markInf l i) i (by rw [hlen]; exact hi)
        (fun j' hj' => by rw [hlen]; exact hrest j' hj'))
    · exact ih l i hi hrest

theorem dedupOuter_like : ∀ (is : List ℕ) (l : List Sol),
    (∀ i ∈ is, i < l.length) → SolsLike l (dedupOuter l is) := by
  intro is
  induction is with
  | nil => intro l h; exact solsLike_refl l
  | cons i rest ih =>
    intro l h
    rw [dedupOuter]
    have hi : i < l.length := h i (List.mem_cons_self _ _)
    have hinner := dedupInner_like (List.range l.length) l i hi
      (fun j hj => List.mem_range.1 hj)
    have hlen : (dedupInner l i (List.range l.length)).length = l.length := hinner.1
    exact solsLike_trans hinner (ih _ (fun i' hi' => by
      rw [hlen]; exact h i' (List.mem_cons_of_mem _ hi')))

/-- The dedup pass keeps length and parameters, only ever overwriting
distances with `⊤`. -/
theorem dedup_like (l : List Sol) : SolsLike l (dedup l) := by
  rw [dedup]
  exact dedupOuter_like (List.range l.length) l (fun i hi => List.mem_range.1 hi)

theorem narrowAll_isSome (A B : CubicBezier) : ∀ (cs : List Cand),
    (∀ c ∈ cs, (bezierIntersectionNarrowPhase c A B 0.000001).isSome) →
    ∃ out, narrowAll A B cs = some out := by
  intro cs
  induction cs with
  | nil => exact fun _ => ⟨[], rfl⟩
  | cons c rest ih =>
    intro h
    obtain ⟨out, hout⟩ := ih (fun c' hc' => h c' (List.mem_cons_of_mem _ hc'))
    obtain ⟨s, hs⟩ := Option.isSome_iff_exists.1 (h c (List.mem_cons_self _ _))
    refine ⟨s :: out, ?_⟩
    rw [narrowAll, hs, hout]

theorem narrowAll_mem (A B : CubicBezier) : ∀ (cs : List Cand) (out : List Sol),
    narrowAll A B cs = some out → ∀ s ∈ out,
    ∃ c ∈ cs, bezierIntersectionNarrowPhase c A B 0.000001 = some s := by
  intro cs
  induction cs with
  | nil =>
    intro out h s hs
    rw [narrowAll] at h
    cases h
    simp at hs
  | cons c rest ih =>
    intro out h s hs
    rw [narrowAll] at h
    cases hnp : bezierIntersectionNarrowPhase c A B 0.000001 with
    | none =>
      rw [hnp] at h
      exact Option.noConfusion h
    | some s0 =>
      rw [hnp] at h
      cases hna : narrowAll A B rest with
      | none =>
        rw [hna] at h
        exact Option.noConfusion h
      | some out0 =>
        rw [hna] at h
        cases h
        rcases List.mem_cons.1 hs with rfl | hs2
        · exact ⟨c, List.mem_cons_self _ _, hnp⟩
        · obtain ⟨c', hc', he⟩ := ih out0 hna s hs2
          exact ⟨c', List.mem_cons_of_mem _ hc', he⟩

/-- C7 (confirmed): for every pair of cubic curves and every tolerance,
the orchestrator returns a value: two parameter lists of equal length,
each sorted ascending, with every entry in `[0, 1]`; and when no refined
solution has distance below the tolerance the two lists are empty — a
normal outcome, not an error. -/
theorem bezierIntersection_output_invariant (A B : CubicBezier) (tollerance : ℝ) :
    ∃ pa pb : List ℝ,
      bezierIntersection A B tollerance = some (pa, pb) ∧
      pa.length = pb.length ∧
      List.Sorted (fun x y => x ≤ y) pa ∧
      List.Sorted (fun x y => x ≤ y) pb ∧
      (∀ x ∈ pa, 0 ≤ x ∧ x ≤ 1) ∧
      (∀ x ∈ pb, 0 ≤ x ∧ x ≤ 1) ∧
      (∀ sols, narrowAll A B (bezierIntersectionBroadPhase 8 A B 0 1 0 1 0.001) =
          some sols →
        (∀ s ∈ sols, ¬ s.dist < ((tollerance : ℝ) : WithTop ℝ)) →
        pa = [] ∧ pb = []) := by
  have hcand : ∀ c ∈ bezierIntersectionBroadPhase 8 A B 0 1 0 1 0.001,
      (bezierIntersectionNarrowPhase c A B 0.000001).isSome ∧
      (0 ≤ c.aMin ∧ c.aMax ≤ 1 ∧ c.aMin ≤ c.aMax) ∧
      (0 ≤ c.bMin ∧ c.bMax ≤ 1 ∧ c.bMin ≤ c.bMax) := by
    intro c hc
    have hp := broadPhase_cand_props 8 A B 0 1 0 1 0.001 c hc
    have hw1 : c.aMax - c.aMin = 1 / 256 := by rw [hp.1.1]; norm_num
    have hw2 : c.bMax - c.bMin = 1 / 256 := by rw [hp.1.2]; norm_num
    have hba := hp.2.1 (by norm_num)
    have hbb := hp.2.2 (by norm_num)
    refine ⟨?_, ⟨hba.1, hba.2, by linarith⟩, ⟨hbb.1, hbb.2, by linarith⟩⟩
    unfold bezierIntersectionNarrowPhase
    exact narrowPhase_terminates.2 A B narrowFuel c
      (by rw [hw1, hw2, max_self]; unfold narrowFuel; norm_num)
      (by rw [hw1, hw2, max_self]; norm_num)
  obtain ⟨sols, hsols⟩ := narrowAll_isSome A B _ (fun c hc => (hcand c hc).1)
  have hlike := dedup_like sols
  have heq : bezierIntersection A B tollerance =
      some (List.insertionSort (fun x y => x ≤ y)
              (((dedup sols).filter fun s =>
                s.dist < ((tollerance : ℝ) : WithTop ℝ)).map Sol.pa),
            List.insertionSort (fun x y => x ≤ y)
              (((dedup sols).filter fun s =>
                s.dist < ((tollerance : ℝ) : WithTop ℝ)).map Sol.pb)) := by
    unfold bezierIntersection
    dsimp only
    rw [hsols]
  have hparam : ∀ s ∈ dedup sols, (0 ≤ s.pa ∧ s.pa ≤ 1) ∧ (0 ≤ s.pb ∧ s.pb ≤ 1) := by
    intro s hs
    obtain ⟨i, hi, he⟩ := mem_solAt _ s hs
    have hilen : i < sols.length := by rw [← hlike.1]; exact hi
    have hpq := hlike.2 i hilen
    have hmem0 : solAt sols i ∈ sols := solAt_mem sols i hilen
    obtain ⟨c, hc, hnc⟩ := narrowAll_mem A B _ sols hsols (solAt sols i) hmem0
    have hbnds := hcand c hc
    have hgo := narrowGo_some_bounds A B 0.000001 narrowFuel c none (solAt sols i)
      hnc hbnds.2.1.2.2 hbnds.2.2.2.2
    rw [← he]
    rw [hpq.1, hpq.2.1]
    constructor
    · exact ⟨le_trans hbnds.2.1.1 hgo.1, le_trans hgo.2.1 hbnds.2.1.2.1⟩
    · exact ⟨le_trans hbnds.2.2.1 hgo.2.2.1, le_trans hgo.2.2.2 hbnds.2.2.2.1⟩
  refine ⟨_, _, heq, ?_, ?_, ?_, ?_, ?_, ?_⟩
  · rw [(List.perm_insertionSort _ _).length_eq, (List.perm_insertionSort _ _).length_eq]
    simp
  · exact List.sorted_insertionSort _ _
  · exact List.sorted_insertionSort _ _
  · intro x hx
    rw [(List.perm_insertionSort _ _).mem_iff] at hx
    obtain ⟨s, hsmem, rfl⟩ := List.mem_map.1 hx
    exact (hparam s (List.mem_filter.1 hsmem).1).1
  · intro x hx
    rw [(List.perm_insertionSort _ _).mem_iff] at hx
    obtain ⟨s, hsmem, rfl⟩ := List.mem_map.1 hx
    exact (hparam s (List.mem_filter.1 hsmem).1).2
  · intro solsQ h1 h2
    have hss : solsQ = sols := by
      rw [hsols] at h1
      exact (Option.some.inj h1).symm
    rw [hss] at h2
    have hfilter : ((dedup sols).filter fun s =>
        s.dist < ((tollerance : ℝ) : WithTop ℝ)) = [] := by
      rw [List.filter_eq_nil_iff]
      intro s hs
      obtain ⟨i, hi, he⟩ := mem_solAt _ s hs
      have hilen : i < sols.length := by rw [← hlike.1]; exact hi
      have hpq := hlike.2 i hilen
      simp only [decide_eq_true_eq]
      rw [← he]
      rcases hpq.2.2 with hd | hd
      · rw [hd]
        exact h2 (solAt sols i) (solAt_mem sols i hilen)
      · rw [hd]
        simp
    rw [hfilter]
    exact ⟨rfl, rfl⟩

/-- C6 witness: the synthetic pair `(solA, solB)` is close, has finite
differing distances, and the dedup pass keeps the lower-distance `solA`
while marking `solB` with the `⊤` sentinel. -/
theorem dedup_pair_witness :
    (solA.dist < solB.dist → dedup [solA, solB] = [solA, ⟨solB.pa, solB.pb, ⊤⟩]) ∧
    (¬ solA.dist < solB.dist → dedup [solA, solB] = [⟨solA.pa, solA.pb, ⊤⟩, solB]) :=
  dedup_pair solA solB (by simp [solA]) (by simp [solB]) (by norm_num [solA, solB])
